import Mathlib

/-!
# secstatus: the hexadecimal glyph renderer of `graphics.c`

A shallow embedding of `tools/efitools/secstatus/src/graphics.c` and of the
setup path of `secstatus.c` (`UefiMain`, `exitBootServices`, `getArgs`).

* The globals `COL`, `ROW` (both `UINT32`) and the frame buffer are one explicit
  `State`.  The frame buffer is represented by the ordered log of the stores made
  through `*pixelAddr (x, y) = color`; the same log records every entry into
  `printHexDigitThroughGraphics`, `printLnThroughGraphics` and `drawLine`, so that
  statements about "the calls made" are statements about the log.
* `UINT32` arithmetic wraps modulo `2 ^ 32`, `UINTN` arithmetic modulo `2 ^ 64`
  (the X64 build) and `UINT8` modulo `2 ^ 8`.  Passing a `UINTN` to an `int`
  parameter truncates to 32 bits, two's complement.
* `int` arithmetic inside `drawLine` is modelled twice.  `drawLine` computes with
  exact integers and the C division that truncates toward zero (`Int.tdiv`);
  `drawLineInt32` reduces the difference, the product and the sum to 32 bits, two's
  complement, as the compiled code does.  The two agree whenever the arguments are
  `int` values and `99 * |x1 - x0|`, `99 * |y1 - y0|` fit an `int`
  (`drawLineInt32_eq_drawLine`), which holds for every stroke of a glyph drawn at
  a cursor whose cell coordinates fit an `int` (`glyph_calls_exact`).
* `DESIRED_HREZ` comes from a header that is not part of the sources at hand; it
  is the parameter `H` of every function that reads it.
-/

namespace Secstatus

/-! ## Machine integers -/

/-- Wrap a natural number to the range of `UINT8`. -/
def toUINT8 (n : Nat) : Nat := n % 2 ^ 8

/-- Wrap a natural number to the range of `UINT32`. -/
def toUINT32 (n : Nat) : Nat := n % 2 ^ 32

/-- Wrap a natural number to the range of `UINTN` (64 bits). -/
def toUINTN (n : Nat) : Nat := n % 2 ^ 64

/-- Subtraction of `UINT32` values, wrapping modulo `2 ^ 32`. -/
def subUINT32 (a b : Nat) : Nat := (a % 2 ^ 32 + (2 ^ 32 - b % 2 ^ 32)) % 2 ^ 32

/-- Conversion of an unsigned value to an `int` argument: the low 32 bits read as
a two's complement number. -/
def toInt32 (n : Nat) : Int :=
  if n % 2 ^ 32 < 2 ^ 31 then ((n % 2 ^ 32 : Nat) : Int)
  else ((n % 2 ^ 32 : Nat) : Int) - 2 ^ 32

/-! ## State and event log -/

/-- What the renderer does that can be observed from outside. -/
inductive Event where
  /-- Entry into `printHexDigitThroughGraphics (digit)`. -/
  | callHexDigit (digit : Nat)
  /-- Entry into `printLnThroughGraphics ()`. -/
  | callLn
  /-- Entry into `drawLine (x0, y0, x1, y1, color)`. -/
  | callDrawLine (x0 y0 x1 y1 : Int) (color : Nat)
  /-- The store `*pixelAddr (x, y) = color`. -/
  | write (x y : Int) (color : Nat)
  deriving DecidableEq

/-- The globals `COL` and `ROW` together with the log of events so far
(oldest first). -/
structure State where
  COL : Nat
  ROW : Nat
  trace : List Event
  deriving DecidableEq

/-- Append one event to the log. -/
def State.emit (s : State) (e : Event) : State :=
  { s with trace := s.trace ++ [e] }

/-- The start of a session: `UINT32 COL = 0, ROW = 0;` and nothing drawn. -/
def initialState : State := ⟨0, 0, []⟩

/-! ## `graphics.c` -/

/-- The element offset `x + DESIRED_HREZ * y` that `pixelAddr` adds to the frame
buffer base, both arguments converted to `UINTN`. -/
def pixelAddr (H : Nat) (x y : Int) : Nat :=
  toUINTN ((x % 2 ^ 64).toNat + toUINTN (H * (y % 2 ^ 64).toNat))

/-- One iteration of the loop of `drawLine`. -/
def drawLineStep (x0 y0 x1 y1 : Int) (color : Nat) (s : State) (i : Nat) : State :=
  let x := x0 + ((x1 - x0) * (i : Int)).tdiv 100
  let y := y0 + ((y1 - y0) * (i : Int)).tdiv 100
  s.emit (Event.write x y color)

/-- The function `drawLine`: `for (int i = 0; i < 100; i++)` one store each. -/
def drawLine (x0 y0 x1 y1 : Int) (color : Nat) (s : State) : State :=
  (List.range 100).foldl (drawLineStep x0 y0 x1 y1 color)
    (s.emit (Event.callDrawLine x0 y0 x1 y1 color))

/-- The function `printLnThroughGraphics`: `COL = 0; ROW++;`. -/
def printLnThroughGraphics (s : State) : State :=
  let s := s.emit Event.callLn
  { s with COL := 0, ROW := toUINT32 (s.ROW + 1) }

def DIGIT_WIDTH : Nat := 20
def DIGIT_HEIGHT : Nat := 40
def DIGIT_MARGIN : Nat := 3

/-- A call `drawLine (a, b, c, d, color)` whose coordinate arguments are `UINTN`
expressions, converted to the `int` parameters. -/
def line (a b c d : Nat) (color : Nat) (s : State) : State :=
  drawLine (toInt32 a) (toInt32 b) (toInt32 c) (toInt32 d) color s

/-- The `switch (digit)` of `printHexDigitThroughGraphics`. -/
def drawDigit (digit : Nat) (xs ys xe ye xc yc : Nat) (color : Nat) (s : State) : State :=
  match digit with
  | 0x0 =>
    s |> line xs ys xe ys color
      |> line xe ys xe ye color
      |> line xs ye xe ye color
      |> line xs ys xs ye color
  | 0x1 =>
    s |> line xc ys xc ye color
  | 0x2 =>
    s |> line xs ys xe ys color
      |> line xe ys xs ye color
      |> line xs ye xe ye color
  | 0x3 =>
    s |> line xe ys xe ye color
      |> line xs ys xe ys color
      |> line xs yc xe yc color
      |> line xs ye xe ye color
  | 0x4 =>
    s |> line xe ye xe ys color
      |> line xe ys xs yc color
      |> line xs yc xe yc color
  | 0x5 =>
    s |> line xe ys xs ys color
      |> line xs ys xs yc color
      |> line xs yc xe yc color
      |> line xe yc xe ye color
      |> line xe ye xs ye color
  | 0x6 =>
    s |> line xe ys xs ys color
      |> line xs ys xs ye color
      |> line xs yc xe yc color
      |> line xe yc xe ye color
      |> line xe ye xs ye color
  | 0x7 =>
    s |> line xs ys xe ys color
      |> line xe ys xs ye color
  | 0x8 =>
    s |> line xs ys xe ys color
      |> line xe ys xe ye color
      |> line xs ye xe ye color
      |> line xs ys xs ye color
      |> line xs yc xe yc color
  | 0x9 =>
    s |> line xe ys xe ye color
      |> line xs ye xe ye color
      |> line xs ys xe ys color
      |> line xs yc xe yc color
      |> line xs ys xs yc color
  | 0xa =>
    s |> line xc ys xs ye color
      |> line xc ys xe ye color
      |> line (toUINTN (xs + xc) / 2) yc (toUINTN (xe + xc) / 2) yc color
  | 0xb =>
    s |> line xs ys xs ye color
      |> line xs ys xe (toUINTN (ys + yc) / 2) color
      |> line xe (toUINTN (ys + yc) / 2) xs yc color
      |> line xs yc xe (toUINTN (ye + yc) / 2) color
      |> line xe (toUINTN (ye + yc) / 2) xs ye color
  | 0xc =>
    s |> line xs ys xe ys color
      |> line xs ys xs ye color
      |> line xs ye xe ye color
  | 0xd =>
    s |> line xs ys xs ye color
      |> line xs ys xe yc color
      |> line xe yc xs ye color
  | 0xe =>
    s |> line xs ys xs ye color
      |> line xs ys xe ys color
      |> line xs yc xe yc color
      |> line xs ye xe ye color
  | 0xf =>
    s |> line xs ys xs ye color
      |> line xs ys xe ys color
      |> line xs yc xe yc color
  | _ =>
    s |> line xs ys xe ye 0x00ff00ff

/-- `UINTN xs = COL * DIGIT_WIDTH + DIGIT_MARGIN;` (the product and the sum are
`UINT32` arithmetic, the result is widened to `UINTN`). -/
def cell_xs (COL : Nat) : Nat :=
  toUINTN (toUINT32 (toUINT32 (COL * DIGIT_WIDTH) + DIGIT_MARGIN))

/-- `UINTN ys = ROW * DIGIT_HEIGHT + DIGIT_MARGIN;` -/
def cell_ys (ROW : Nat) : Nat :=
  toUINTN (toUINT32 (toUINT32 (ROW * DIGIT_HEIGHT) + DIGIT_MARGIN))

/-- `UINTN xe = ( COL + 1 ) * DIGIT_WIDTH - DIGIT_MARGIN;` -/
def cell_xe (COL : Nat) : Nat :=
  toUINTN (subUINT32 (toUINT32 (toUINT32 (COL + 1) * DIGIT_WIDTH)) DIGIT_MARGIN)

/-- `UINTN ye = ( ROW + 1 ) * DIGIT_HEIGHT - DIGIT_MARGIN;` -/
def cell_ye (ROW : Nat) : Nat :=
  toUINTN (subUINT32 (toUINT32 (toUINT32 (ROW + 1) * DIGIT_HEIGHT)) DIGIT_MARGIN)

/-- `UINTN xc = ( xs + xe ) / 2;` -/
def cell_xc (COL : Nat) : Nat := toUINTN (cell_xs COL + cell_xe COL) / 2

/-- `UINTN yc = ( ys + ye ) / 2;` -/
def cell_yc (ROW : Nat) : Nat := toUINTN (cell_ys ROW + cell_ye ROW) / 2

/-- The function `printHexDigitThroughGraphics`; `H` is `DESIRED_HREZ`. -/
def printHexDigitThroughGraphics (H : Nat) (digit : Nat) (s : State) : State :=
  let s := s.emit (Event.callHexDigit digit)
  let xs := cell_xs s.COL
  let ys := cell_ys s.ROW
  let xe := cell_xe s.COL
  let ye := cell_ye s.ROW
  let xc := cell_xc s.COL
  let yc := cell_yc s.ROW
  let color := 0x00ffffff
  let s := drawDigit digit xs ys xe ye xc yc color s
  let s := { s with COL := toUINT32 (s.COL + 1) }
  if s.COL > H / DIGIT_WIDTH then
    { s with COL := 0, ROW := toUINT32 (s.ROW + 1) }
  else
    s

/-- The function `printU32ThroughGraphics`:
`for (int digit = 7; digit >= 0; digit--)` one glyph each, then the line break. -/
def printU32ThroughGraphics (H : Nat) (u : Nat) (s : State) : State :=
  let s := [7, 6, 5, 4, 3, 2, 1, 0].foldl
    (fun s digit =>
      let value := toUINT8 ((u >>> (4 * digit)) &&& 0x0f)
      printHexDigitThroughGraphics H value s)
    s
  printLnThroughGraphics s

/-! ## Reading the log -/

/-- Is the event an entry into one of the two printing steps that
`printU32ThroughGraphics` is made of? -/
def Event.isPrintCall : Event → Bool
  | Event.callHexDigit _ => true
  | Event.callLn => true
  | _ => false

/-- The arguments of the `printHexDigitThroughGraphics` calls in a log, in call
order. -/
def hexDigitArgs (t : List Event) : List Nat :=
  t.filterMap fun e =>
    match e with
    | Event.callHexDigit d => some d
    | _ => none

/-- The `drawLine` calls in a log, in call order, as
`(x0, y0, x1, y1, color)`. -/
def drawLineCalls (t : List Event) : List (Int × Int × Int × Int × Nat) :=
  t.filterMap fun e =>
    match e with
    | Event.callDrawLine x0 y0 x1 y1 color => some (x0, y0, x1, y1, color)
    | _ => none

/-- The pixel stores in a log, in order, as `(x, y, color)`. -/
def pixelWrites (t : List Event) : List (Int × Int × Nat) :=
  t.filterMap fun e =>
    match e with
    | Event.write x y color => some (x, y, color)
    | _ => none

/-- The `i`-th sample of `drawLine (x0, y0, x1, y1, color)`. -/
def sample (x0 y0 x1 y1 : Int) (color : Nat) (i : Nat) : Int × Int × Nat :=
  (x0 + ((x1 - x0) * (i : Int)).tdiv 100, y0 + ((y1 - y0) * (i : Int)).tdiv 100, color)

/-- The nibble that the loop of `printU32ThroughGraphics` extracts in its `k`-th
iteration (`k = 0` is the first one, `digit = 7`). -/
def nibble (u k : Nat) : Nat := (u >>> (28 - 4 * k)) &&& 0xF

/-- The value of a list of hexadecimal digits, most significant first. -/
def hexValue (ds : List Nat) : Nat := ds.foldl (fun acc d => acc * 16 + d) 0

/-! ## The events of each function -/

/-- The events of one `drawLine` call: its entry, then the 100 stores. -/
def lineEvents (x0 y0 x1 y1 : Int) (color : Nat) : List Event :=
  Event.callDrawLine x0 y0 x1 y1 color ::
    (List.range 100).map fun (i : Nat) =>
      Event.write (x0 + ((x1 - x0) * (i : Int)).tdiv 100)
        (y0 + ((y1 - y0) * (i : Int)).tdiv 100) color

/-- The events of the `switch` of `printHexDigitThroughGraphics`. -/
def glyphEvents (digit : Nat) (xs ys xe ye xc yc : Nat) (color : Nat) : List Event :=
  (drawDigit digit xs ys xe ye xc yc color ⟨0, 0, []⟩).trace

/-- The events of one `printHexDigitThroughGraphics (digit)` call made with the
cursor at `(COL, ROW)`. -/
def digitEvents (digit COL ROW : Nat) : List Event :=
  Event.callHexDigit digit ::
    glyphEvents digit (cell_xs COL) (cell_ys ROW) (cell_xe COL) (cell_ye ROW)
      (cell_xc COL) (cell_yc ROW) 0x00ffffff

/-! ## The stroke table of the specification -/

/-- The reference points of a cursor cell, as plain integers. -/
structure RefPoints where
  xs : Int
  ys : Int
  xe : Int
  ye : Int
  xc : Int
  yc : Int

/-- The reference points that the specification gives for the cursor `(c, r)`:
`xs = 20c+3`, `ys = 40r+3`, `xe = 20(c+1)-3`, `ye = 40(r+1)-3`,
`xc = (xs+xe)/2`, `yc = (ys+ye)/2`. -/
def refPoints (c r : Nat) : RefPoints :=
  let xs : Int := 20 * c + 3
  let ys : Int := 40 * r + 3
  let xe : Int := 20 * (c + 1) - 3
  let ye : Int := 40 * (r + 1) - 3
  ⟨xs, ys, xe, ye, (xs + xe) / 2, (ys + ye) / 2⟩

/-- A stroke: start point and end point, `(x0, y0, x1, y1)`. -/
abbrev Stroke := Int × Int × Int × Int

/-- A stroke drawn in the opposite direction. -/
def Stroke.rev (s : Stroke) : Stroke := (s.2.2.1, s.2.2.2, s.1, s.2.1)

namespace RefPoints

/-- Top edge, left to right. -/
def top (p : RefPoints) : Stroke := (p.xs, p.ys, p.xe, p.ys)
/-- Bottom edge, left to right. -/
def bottom (p : RefPoints) : Stroke := (p.xs, p.ye, p.xe, p.ye)
/-- Left edge, top to bottom. -/
def left (p : RefPoints) : Stroke := (p.xs, p.ys, p.xs, p.ye)
/-- Right edge, top to bottom. -/
def right (p : RefPoints) : Stroke := (p.xe, p.ys, p.xe, p.ye)
/-- Middle horizontal, left to right. -/
def middle (p : RefPoints) : Stroke := (p.xs, p.yc, p.xe, p.yc)
/-- Vertical stroke through the centre, top to bottom. -/
def centre (p : RefPoints) : Stroke := (p.xc, p.ys, p.xc, p.ye)
/-- Upper half of the left edge, top to middle. -/
def leftUpper (p : RefPoints) : Stroke := (p.xs, p.ys, p.xs, p.yc)
/-- Lower half of the right edge, middle to bottom. -/
def rightLower (p : RefPoints) : Stroke := (p.xe, p.yc, p.xe, p.ye)
/-- Diagonal from the top right corner to the bottom left corner. -/
def diagTRBL (p : RefPoints) : Stroke := (p.xe, p.ys, p.xs, p.ye)
/-- Diagonal from the top left corner to the bottom right corner. -/
def diagTLBR (p : RefPoints) : Stroke := (p.xs, p.ys, p.xe, p.ye)

end RefPoints

/-- The stroke programs of the table in section 4.2 of the specification, one per
nibble, in the order and direction the table gives.  For `a`, `b` and `d` the
table describes the shape only; their end points are the reference points and
quarter points that the shape passes through. -/
def specStrokes (nibble : Nat) (p : RefPoints) : List Stroke :=
  match nibble with
  | 0 => [p.top, p.right, p.bottom, p.left]
  | 1 => [p.centre]
  | 2 => [p.top, p.diagTRBL, p.bottom]
  | 3 => [p.right, p.top, p.middle, p.bottom]
  | 4 => [p.right.rev, (p.xe, p.ys, p.xs, p.yc), p.middle]
  | 5 => [p.top.rev, p.leftUpper, p.middle, p.rightLower, p.bottom.rev]
  | 6 => [p.top.rev, p.left, p.middle, p.rightLower, p.bottom.rev]
  | 7 => [p.top, p.diagTRBL]
  | 8 => [p.top, p.right, p.bottom, p.left, p.middle]
  | 9 => [p.right, p.bottom, p.top, p.middle, p.leftUpper]
  | 10 => [(p.xc, p.ys, p.xs, p.ye), (p.xc, p.ys, p.xe, p.ye),
      ((p.xs + p.xc) / 2, p.yc, (p.xe + p.xc) / 2, p.yc)]
  | 11 => [p.left, (p.xs, p.ys, p.xe, (p.ys + p.yc) / 2), (p.xe, (p.ys + p.yc) / 2, p.xs, p.yc),
      (p.xs, p.yc, p.xe, (p.ye + p.yc) / 2), (p.xe, (p.ye + p.yc) / 2, p.xs, p.ye)]
  | 12 => [p.top, p.left, p.bottom]
  | 13 => [p.left, (p.xs, p.ys, p.xe, p.yc), (p.xe, p.yc, p.xs, p.ye)]
  | 14 => [p.left, p.top, p.middle, p.bottom]
  | 15 => [p.left, p.top, p.middle]
  | _ => [p.diagTLBR]

/-- A stroke as a `drawLine` call in the colour `color`. -/
def Stroke.call (color : Nat) (s : Stroke) : Int × Int × Int × Int × Nat :=
  (s.1, s.2.1, s.2.2.1, s.2.2.2, color)

/-- The pixel stores of one `drawLine` call `(x0, y0, x1, y1, color)`, in order. -/
def samplesOf (call : Int × Int × Int × Int × Nat) : List (Int × Int × Nat) :=
  (List.range 100).map (sample call.1 call.2.1 call.2.2.1 call.2.2.2.1 call.2.2.2.2)

/-- Does the event, if it is a `drawLine` call or a pixel store, carry the colour
`color`? -/
def Event.hasColor (color : Nat) : Event → Prop
  | Event.callDrawLine _ _ _ _ c => c = color
  | Event.write _ _ c => c = color
  | _ => True

/-! ## Quarter points -/

/-- Is one of the end point coordinates of the `drawLine` call a quarter-point of
the cell with reference points `p`: `(xs+xc)/2` or `(xe+xc)/2` for an `x`,
`(ys+yc)/2` or `(ye+yc)/2` for a `y`? -/
def usesQuarterPoint (p : RefPoints) (call : Int × Int × Int × Int × Nat) : Bool :=
  decide (call.1 = (p.xs + p.xc) / 2 ∨ call.1 = (p.xe + p.xc) / 2 ∨
    call.2.2.1 = (p.xs + p.xc) / 2 ∨ call.2.2.1 = (p.xe + p.xc) / 2 ∨
    call.2.1 = (p.ys + p.yc) / 2 ∨ call.2.1 = (p.ye + p.yc) / 2 ∨
    call.2.2.2.1 = (p.ys + p.yc) / 2 ∨ call.2.2.2.1 = (p.ye + p.yc) / 2)

/-- Are all end point coordinates of the `drawLine` call among `xs`, `xe`, `xc`
(for an `x`) and `ys`, `ye`, `yc` (for a `y`)? -/
def onlyRefPoints (p : RefPoints) (call : Int × Int × Int × Int × Nat) : Bool :=
  decide ((call.1 = p.xs ∨ call.1 = p.xe ∨ call.1 = p.xc) ∧
    (call.2.2.1 = p.xs ∨ call.2.2.1 = p.xe ∨ call.2.2.1 = p.xc) ∧
    (call.2.1 = p.ys ∨ call.2.1 = p.ye ∨ call.2.1 = p.yc) ∧
    (call.2.2.2.1 = p.ys ∨ call.2.2.2.1 = p.ye ∨ call.2.2.2.1 = p.yc))

/-- The nibbles `0..15` whose stroke program, drawn at the cursor `(c, r)`, uses a
quarter-point. -/
def quarterPointDigits (H c r : Nat) : List Nat :=
  (List.range 16).filter fun d =>
    (drawLineCalls (printHexDigitThroughGraphics H d ⟨c, r, []⟩).trace).any
      (usesQuarterPoint (refPoints c r))

/-! ## Sessions -/

/-- A session: the calls `printU32ThroughGraphics (u)` for the values `us`, in
order (what `printRegistersUsing (printU32ThroughGraphics)` does for a register
table with these values). -/
def session (H : Nat) (us : List Nat) (s : State) : State :=
  us.foldl (fun s u => printU32ThroughGraphics H u s) s

/-! ## `initGraphics` and `UefiMain`

The firmware services are inputs of the model: `Firmware` holds what each service
returns.  Console output (`Print`) is not modelled.  The macro
`EXPECT (expected, code)` expands to
`{EFI_STATUS status = code; if (status != expected) { Print (...); return status; }}`:
it returns the status of `code` when that is not `expected`. -/

/-- The status `EFI_SUCCESS` of the UEFI specification. -/
def EFI_SUCCESS : Nat := 0

/-- The status `EFI_INVALID_PARAMETER` of the UEFI specification (error bit and
code 2, 64 bit). -/
def EFI_INVALID_PARAMETER : Nat := 0x8000000000000002

/-- The status `EFI_UNSUPPORTED` of the UEFI specification (error bit and code 3,
64 bit). -/
def EFI_UNSUPPORTED : Nat := 0x8000000000000003

/-- The fields of `EFI_GRAPHICS_OUTPUT_MODE_INFORMATION` that `initGraphics` reads. -/
structure ModeInformation where
  HorizontalResolution : Nat
  VerticalResolution : Nat
  PixelFormat : Nat
  deriving DecidableEq

/-- What the firmware and the hardware answer in one run of the program. -/
structure Firmware where
  /-- Status of `OpenProtocol` in `getArgs`. -/
  openProtocol : Nat
  /-- The shell arguments `argv[0]`, `argv[1]`, ...: strings of `CHAR16` code units,
  without the terminating 0. -/
  argv : List (List Nat)
  /-- Status of `LocateHandleBuffer`. -/
  locateHandleBuffer : Nat
  /-- Status of `HandleProtocol`. -/
  handleProtocol : Nat
  /-- The modes of the adapter: `QueryMode` succeeds exactly for the mode numbers
  below `modes.length`. -/
  modes : List ModeInformation
  /-- Status of `QueryMode` for every other mode number. -/
  queryModeError : Nat
  /-- Status of `SetMode (mode_num)`. -/
  setMode : Nat → Nat
  /-- The value read from a variable that was never assigned. -/
  indeterminate : Nat
  /-- Status of `GetMemoryMap`. -/
  getMemoryMap : Nat
  /-- Status of `ExitBootServices`. -/
  exitBootServices : Nat
  /-- The 32 bit word read at an address. -/
  mem : Nat → Nat

/-- What `UefiMain` does that the claims speak of. -/
inductive BootEvent where
  /-- Entry into `initGraphics`. -/
  | callInitGraphics
  /-- The call `gop->SetMode (gop, mode_num)`. -/
  | callSetMode (mode_num : Nat)
  /-- Return of `initGraphics` with a status. -/
  | retInitGraphics (status : Nat)
  /-- Entry into `exitBootServices`. -/
  | callExitBootServices
  /-- Return of `exitBootServices` with a status. -/
  | retExitBootServices (status : Nat)
  /-- The call `printU32ThroughPort80 (u)`. -/
  | renderPort80 (u : Nat)
  /-- The call `printU32ThroughGraphics (u)`. -/
  | renderGraphics (u : Nat)
  deriving DecidableEq

/-- How `UefiMain` ends: it returns a status, or it reaches `while ( 1 );`. -/
inductive Outcome where
  | returned (status : Nat)
  | idle
  deriving DecidableEq

/-- The loop of `initGraphics`:
`for (mode_num = 0; (status = QueryMode (mode_num)) == EFI_SUCCESS; mode_num++)`
with `break` at the first mode that has the desired resolution and pixel format.
The result is `(status, mode_num)` after the loop; the list holds the modes from
`mode_num` on. -/
def queryLoop (H V F queryModeError : Nat) : List ModeInformation → Nat → Nat × Nat
  | [], mode_num => (queryModeError, mode_num)
  | info :: rest, mode_num =>
    if info.HorizontalResolution = H ∧ info.VerticalResolution = V ∧ info.PixelFormat = F then
      (EFI_SUCCESS, mode_num)
    else
      queryLoop H V F queryModeError rest (mode_num + 1)

/-- The function `initGraphics`; `H`, `V`, `F` are `DESIRED_HREZ`, `DESIRED_VREZ`,
`DESIRED_PIXEL_FORMAT`.  The result is the returned status and the `SetMode` calls.

After the loop the source has `EXPECT ( EFI_SUCCESS, status );`, which expands to
`{EFI_STATUS status = status; if (status != EFI_SUCCESS) { ...; return status; }}`:
the `status` of the macro is a new variable, in scope from its own declarator on,
so it is initialised from itself and the test reads that variable, not the
`status` that the loop assigned.  Its value is `fw.indeterminate`. -/
def initGraphics (fw : Firmware) (H V F : Nat) : Nat × List BootEvent :=
  if fw.locateHandleBuffer ≠ EFI_SUCCESS then (fw.locateHandleBuffer, [])
  else if fw.handleProtocol ≠ EFI_SUCCESS then (fw.handleProtocol, [])
  else
    let loop := queryLoop H V F fw.queryModeError fw.modes 0
    let mode_num := loop.2
    let status := fw.indeterminate
    if status ≠ EFI_SUCCESS then (status, [])
    else if fw.setMode mode_num ≠ EFI_SUCCESS then
      (fw.setMode mode_num, [BootEvent.callSetMode mode_num])
    else (EFI_SUCCESS, [BootEvent.callSetMode mode_num])

/-- The function `exitBootServices`: `GetMemoryMap`, then `ExitBootServices`. -/
def exitBootServices (fw : Firmware) : Nat :=
  if fw.getMemoryMap ≠ EFI_SUCCESS then fw.getMemoryMap
  else if fw.exitBootServices ≠ EFI_SUCCESS then fw.exitBootServices
  else EFI_SUCCESS

/-- The function `getArgs`: its status; `argc` and `argv` are read from `fw.argv`. -/
def getArgs (fw : Firmware) : Nat :=
  if fw.openProtocol ≠ EFI_SUCCESS then fw.openProtocol else EFI_SUCCESS

/-- The addresses of the table `registers` (`ACM_POLICY_STATUS`). -/
def registers : List Nat := [0xFED30378]

/-- The function `printRegistersUsing (printU32)`: one call of `printU32` for each
register, with the 32 bit word read at its address. -/
def printRegistersUsing (fw : Firmware) (printU32 : Nat → BootEvent) : List BootEvent :=
  registers.map fun addr => printU32 (toUINT32 (fw.mem addr))

/-- The code unit `s[i]` of a 0-terminated `CHAR16` string. -/
def charAt (s : List Nat) (i : Nat) : Nat := s.getD i 0

/-- Conversion of a `CHAR16` to `char` (`char mode = argv[1][0];`): the low 8 bits,
read as a signed byte. -/
def toChar (c : Nat) : Int :=
  if c % 2 ^ 8 < 2 ^ 7 then ((c % 2 ^ 8 : Nat) : Int) else ((c % 2 ^ 8 : Nat) : Int) - 2 ^ 8

/-- The second `switch ( mode )` of `UefiMain`: the render calls of the mode.  The
codes are `'p'` = 112, `'g'` = 103, `'*'` = 42. -/
def renderCalls (fw : Firmware) (mode : Int) : List BootEvent :=
  if mode = 112 then printRegistersUsing fw BootEvent.renderPort80
  else if mode = 103 then printRegistersUsing fw BootEvent.renderGraphics
  else if mode = 42 then
    printRegistersUsing fw BootEvent.renderPort80 ++
      printRegistersUsing fw BootEvent.renderGraphics
  else []

/-- The part of `UefiMain` after the first `switch`: the handoff, then the second
`switch` and `while ( 1 );`. -/
def handoffAndRender (fw : Firmware) (mode : Int) (log : List BootEvent) :
    Outcome × List BootEvent :=
  let status := exitBootServices fw
  let log := log ++ [BootEvent.callExitBootServices, BootEvent.retExitBootServices status]
  if status ≠ EFI_SUCCESS then (Outcome.returned status, log)
  else (Outcome.idle, log ++ renderCalls fw mode)

/-- The function `UefiMain`: how it ends and what it did.  The codes are
`'g'` = 103, `'p'` = 112, `'u'` = 117, `'*'` = 42. -/
def UefiMain (fw : Firmware) (H V F : Nat) : Outcome × List BootEvent :=
  if getArgs fw ≠ EFI_SUCCESS then (Outcome.returned (getArgs fw), [])
  else if fw.argv.length = 1 then (Outcome.returned EFI_SUCCESS, [])
  else
    let arg := fw.argv.getD 1 []
    if charAt arg 0 = 0 ∨ charAt arg 1 ≠ 0 then (Outcome.returned EFI_INVALID_PARAMETER, [])
    else
      let mode := toChar (charAt arg 0)
      if mode ≠ 103 ∧ mode ≠ 112 ∧ mode ≠ 117 ∧ mode ≠ 42 then
        (Outcome.returned EFI_INVALID_PARAMETER, [])
      else if mode = 103 ∨ mode = 42 then
        let init := initGraphics fw H V F
        let log := BootEvent.callInitGraphics :: init.2 ++ [BootEvent.retInitGraphics init.1]
        if init.1 ≠ EFI_SUCCESS then (Outcome.returned init.1, log)
        else handoffAndRender fw mode log
      else handoffAndRender fw mode []

/-- The monitor of the setup order: reading a log from the left, state 0 becomes
1 when `initGraphics` returns success, state 1 becomes 2 when `exitBootServices`
returns success, and a `printU32ThroughGraphics` call is accepted in state 2
only. -/
def graphicsGuarded : Nat → List BootEvent → Bool
  | _, [] => true
  | q, BootEvent.retInitGraphics status :: rest =>
    graphicsGuarded (if status = EFI_SUCCESS ∧ q = 0 then 1 else q) rest
  | q, BootEvent.retExitBootServices status :: rest =>
    graphicsGuarded (if status = EFI_SUCCESS ∧ q = 1 then 2 else q) rest
  | q, BootEvent.renderGraphics _ :: rest => decide (q = 2) && graphicsGuarded q rest
  | q, _ :: rest => graphicsGuarded q rest

/-- A run in which the adapter has the single mode 800 x 600, every firmware
service succeeds (`SetMode` for every mode number), and the unassigned variable
reads as 0.  The one argument is the string `arg`. -/
def fwAllSucceed (arg : List Nat) : Firmware :=
  { openProtocol := EFI_SUCCESS
    argv := [[115], arg]
    locateHandleBuffer := EFI_SUCCESS
    handleProtocol := EFI_SUCCESS
    modes := [⟨800, 600, 1⟩]
    queryModeError := EFI_UNSUPPORTED
    setMode := fun _ => EFI_SUCCESS
    indeterminate := EFI_SUCCESS
    getMemoryMap := EFI_SUCCESS
    exitBootServices := EFI_SUCCESS
    mem := fun _ => 0xDEADBEEF }

/-! ## Runs of the cursor operations -/

/-- The operations that change the cursor. -/
inductive CursorOp where
  /-- The call `printHexDigitThroughGraphics (digit)`. -/
  | hexDigit (digit : Nat)
  /-- The call `printLnThroughGraphics ()`. -/
  | ln
  /-- The call `printU32ThroughGraphics (u)`. -/
  | u32 (u : Nat)
  deriving DecidableEq

/-- One cursor operation on a state. -/
def CursorOp.run (H : Nat) : CursorOp → State → State
  | CursorOp.hexDigit digit, s => printHexDigitThroughGraphics H digit s
  | CursorOp.ln, s => printLnThroughGraphics s
  | CursorOp.u32 u, s => printU32ThroughGraphics H u s

/-- The state after the operations `ops`, in order, from the state `s`. -/
def runOps (H : Nat) (ops : List CursorOp) (s : State) : State :=
  ops.foldl (fun s op => op.run H s) s

/-! ## `drawLine` in 32-bit `int` arithmetic -/

/-- Reduction of an exact integer to the range of `int` (32 bits, two's
complement): what the compiled `int` arithmetic keeps of a result. -/
def wrapInt32 (z : Int) : Int := (z + 2 ^ 31) % 2 ^ 32 - 2 ^ 31

/-- The `i`-th sample of `drawLine (x0, y0, x1, y1, color)` in 32-bit `int`
arithmetic: the difference `x1 - x0`, the product with `i` and the sum with `x0`
are each reduced to `int`; the division by 100 truncates toward zero. -/
def sampleInt32 (x0 y0 x1 y1 : Int) (color : Nat) (i : Nat) : Int × Int × Nat :=
  (wrapInt32 (x0 + (wrapInt32 (wrapInt32 (x1 - x0) * (i : Int))).tdiv 100),
    wrapInt32 (y0 + (wrapInt32 (wrapInt32 (y1 - y0) * (i : Int))).tdiv 100), color)

/-- One iteration of the loop of `drawLine`, in 32-bit `int` arithmetic. -/
def drawLineStepInt32 (x0 y0 x1 y1 : Int) (color : Nat) (s : State) (i : Nat) : State :=
  let x := wrapInt32 (x0 + (wrapInt32 (wrapInt32 (x1 - x0) * (i : Int))).tdiv 100)
  let y := wrapInt32 (y0 + (wrapInt32 (wrapInt32 (y1 - y0) * (i : Int))).tdiv 100)
  s.emit (Event.write x y color)

/-- The function `drawLine` in 32-bit `int` arithmetic:
`for (int i = 0; i < 100; i++)` one store each. -/
def drawLineInt32 (x0 y0 x1 y1 : Int) (color : Nat) (s : State) : State :=
  (List.range 100).foldl (drawLineStepInt32 x0 y0 x1 y1 color)
    (s.emit (Event.callDrawLine x0 y0 x1 y1 color))

/-! # Theorems -/

/-! ## Structure of the log -/

theorem foldl_drawLineStep (x0 y0 x1 y1 : Int) (color : Nat) (l : List Nat) (s : State) :
    l.foldl (drawLineStep x0 y0 x1 y1 color) s =
      ⟨s.COL, s.ROW, s.trace ++ l.map fun (i : Nat) =>
        Event.write (x0 + ((x1 - x0) * (i : Int)).tdiv 100)
          (y0 + ((y1 - y0) * (i : Int)).tdiv 100) color⟩ := by
  induction l generalizing s with
  | nil => simp
  | cons i l ih => simp [List.foldl_cons, ih, drawLineStep, State.emit]

theorem drawLine_eq (x0 y0 x1 y1 : Int) (color : Nat) (s : State) :
    drawLine x0 y0 x1 y1 color s =
      ⟨s.COL, s.ROW, s.trace ++ lineEvents x0 y0 x1 y1 color⟩ := by
  simp [drawLine, foldl_drawLineStep, State.emit, lineEvents]

theorem line_eq (a b c d color : Nat) (s : State) :
    line a b c d color s =
      ⟨s.COL, s.ROW,
        s.trace ++ lineEvents (toInt32 a) (toInt32 b) (toInt32 c) (toInt32 d) color⟩ := by
  simp [line, drawLine_eq]

theorem drawDigit_eq (digit : Nat) (xs ys xe ye xc yc : Nat) (color : Nat) (s : State) :
    drawDigit digit xs ys xe ye xc yc color s =
      ⟨s.COL, s.ROW, s.trace ++ glyphEvents digit xs ys xe ye xc yc color⟩ := by
  unfold glyphEvents drawDigit
  split <;> simp [line_eq, List.append_assoc]

theorem printHexDigit_eq (H digit : Nat) (s : State) :
    printHexDigitThroughGraphics H digit s =
      ⟨if toUINT32 (s.COL + 1) > H / 20 then 0 else toUINT32 (s.COL + 1),
       if toUINT32 (s.COL + 1) > H / 20 then toUINT32 (s.ROW + 1) else s.ROW,
       s.trace ++ digitEvents digit s.COL s.ROW⟩ := by
  simp only [printHexDigitThroughGraphics, drawDigit_eq, State.emit, digitEvents, DIGIT_WIDTH]
  split <;> simp

theorem printLn_eq (s : State) :
    printLnThroughGraphics s = ⟨0, toUINT32 (s.ROW + 1), s.trace ++ [Event.callLn]⟩ := by
  simp [printLnThroughGraphics, State.emit]

theorem filter_isPrintCall_lineEvents (x0 y0 x1 y1 : Int) (color : Nat) :
    (lineEvents x0 y0 x1 y1 color).filter Event.isPrintCall = [] := by
  simp [lineEvents, Event.isPrintCall, List.filter_eq_nil_iff]

theorem filter_isPrintCall_glyphEvents (digit xs ys xe ye xc yc color : Nat) :
    (glyphEvents digit xs ys xe ye xc yc color).filter Event.isPrintCall = [] := by
  unfold glyphEvents drawDigit
  split <;> simp [line_eq, filter_isPrintCall_lineEvents]

theorem filter_isPrintCall_digitEvents (digit COL ROW : Nat) :
    (digitEvents digit COL ROW).filter Event.isPrintCall = [Event.callHexDigit digit] := by
  simp [digitEvents, filter_isPrintCall_glyphEvents, Event.isPrintCall]

theorem filter_isPrintCall_printHexDigit (H digit : Nat) (s : State) :
    (printHexDigitThroughGraphics H digit s).trace.filter Event.isPrintCall =
      s.trace.filter Event.isPrintCall ++ [Event.callHexDigit digit] := by
  simp [printHexDigit_eq, filter_isPrintCall_digitEvents]

theorem toUINT8_nibble (u k : Nat) : toUINT8 ((u >>> k) &&& 0x0f) = (u >>> k) &&& 0xF := by
  have h : (u >>> k) &&& 0xF < 16 := by
    have := Nat.and_pow_two_sub_one_eq_mod (u >>> k) 4
    simp at this
    omega
  simp only [toUINT8]
  omega

/-! ## The nibbles of `printU32ThroughGraphics` -/

theorem hexDigitArgs_append (t t2 : List Event) :
    hexDigitArgs (t ++ t2) = hexDigitArgs t ++ hexDigitArgs t2 := by
  simp [hexDigitArgs]

theorem hexDigitArgs_lineEvents (x0 y0 x1 y1 : Int) (color : Nat) :
    hexDigitArgs (lineEvents x0 y0 x1 y1 color) = [] := by
  simp [lineEvents, hexDigitArgs, List.filterMap_eq_nil_iff]

theorem hexDigitArgs_glyphEvents (digit xs ys xe ye xc yc color : Nat) :
    hexDigitArgs (glyphEvents digit xs ys xe ye xc yc color) = [] := by
  unfold glyphEvents drawDigit
  split <;> simp [line_eq, hexDigitArgs_append, hexDigitArgs_lineEvents]

theorem hexDigitArgs_printHexDigit (H digit : Nat) (s : State) :
    hexDigitArgs (printHexDigitThroughGraphics H digit s).trace =
      hexDigitArgs s.trace ++ [digit] := by
  have h := hexDigitArgs_glyphEvents digit (cell_xs s.COL) (cell_ys s.ROW) (cell_xe s.COL)
    (cell_ye s.ROW) (cell_xc s.COL) (cell_yc s.ROW) 0x00ffffff
  simp only [hexDigitArgs] at h
  simp [printHexDigit_eq, hexDigitArgs, digitEvents, h]

theorem nibble_eq (u k : Nat) : nibble u k = u / 2 ^ (28 - 4 * k) % 16 := by
  have := Nat.and_pow_two_sub_one_eq_mod (u >>> (28 - 4 * k)) 4
  simp only [nibble, Nat.shiftRight_eq_div_pow] at *
  simpa using this

theorem hexDigitArgs_printU32 (H u : Nat) (s : State) :
    hexDigitArgs (printU32ThroughGraphics H u s).trace =
      hexDigitArgs s.trace ++ (List.range 8).map (nibble u) := by
  simp only [printU32ThroughGraphics, List.foldl, printLn_eq, hexDigitArgs_append,
    hexDigitArgs_printHexDigit, toUINT8_nibble]
  simp [List.range, List.range.loop, hexDigitArgs, nibble]

/-- Claim C1: for every value `u`, the printing steps that `printU32ThroughGraphics (u)`
performs are exactly eight calls of `printHexDigitThroughGraphics`, the `k`-th
(`k = 0..7`) with the nibble `(u >> (28 - 4k)) & 0xF`, followed by exactly one
`printLnThroughGraphics` and nothing else; `u = 0xDEADBEEF` passes the nibbles
`D, E, A, D, B, E, E, F`. -/
theorem printU32_calls (H u : Nat) (s : State) :
    (printU32ThroughGraphics H u s).trace.filter Event.isPrintCall =
        s.trace.filter Event.isPrintCall ++
          ((List.range 8).map fun k => Event.callHexDigit ((u >>> (28 - 4 * k)) &&& 0xF)) ++
          [Event.callLn] ∧
      hexDigitArgs (printU32ThroughGraphics H 0xDEADBEEF initialState).trace =
        [0xD, 0xE, 0xA, 0xD, 0xB, 0xE, 0xE, 0xF] := by
  constructor
  · simp only [printU32ThroughGraphics, List.foldl, printLn_eq, List.filter_append,
      filter_isPrintCall_printHexDigit, toUINT8_nibble]
    simp [List.range, List.range.loop, Event.isPrintCall]
  · rw [hexDigitArgs_printU32]
    simp [initialState, hexDigitArgs, List.range, List.range.loop, nibble_eq]

theorem hexValue_nibbles (u : Nat) (hu : u < 2 ^ 32) :
    hexValue ((List.range 8).map (nibble u)) = u := by
  simp only [List.range, List.range.loop, List.map, hexValue, List.foldl, nibble_eq]
  norm_num
  omega

/-- Claim C3: round trip.  For every 32-bit `u` the nibbles passed by
`printU32ThroughGraphics (u)` to `printHexDigitThroughGraphics`, in call order, are
eight values in `0..15` whose reading as hexadecimal digits, most significant
first, is `u`; so two 32-bit inputs with the same nibble sequence are equal. -/
theorem printU32_roundtrip (H c r u : Nat) (hu : u < 2 ^ 32) :
    (∀ n ∈ hexDigitArgs (printU32ThroughGraphics H u ⟨c, r, []⟩).trace, n ≤ 15) ∧
      (hexDigitArgs (printU32ThroughGraphics H u ⟨c, r, []⟩).trace).length = 8 ∧
      hexValue (hexDigitArgs (printU32ThroughGraphics H u ⟨c, r, []⟩).trace) = u ∧
      ∀ v, v < 2 ^ 32 →
        hexDigitArgs (printU32ThroughGraphics H v ⟨c, r, []⟩).trace =
          hexDigitArgs (printU32ThroughGraphics H u ⟨c, r, []⟩).trace → v = u := by
  have key : ∀ w, hexDigitArgs (printU32ThroughGraphics H w ⟨c, r, []⟩).trace =
      (List.range 8).map (nibble w) := by
    intro w
    rw [hexDigitArgs_printU32]
    simp [hexDigitArgs]
  refine ⟨?_, ?_, ?_, ?_⟩
  · intro n hn
    rw [key] at hn
    obtain ⟨k, -, rfl⟩ := List.mem_map.mp hn
    rw [nibble_eq]
    omega
  · simp [key]
  · rw [key, hexValue_nibbles u hu]
  · intro v hv h
    rw [key, key] at h
    rw [← hexValue_nibbles v hv, ← hexValue_nibbles u hu, h]

/-- Witness of C3 at `u = 0xDEADBEEF`. -/
theorem printU32_roundtrip_witness :
    (0xDEADBEEF < 2 ^ 32) ∧
      hexValue (hexDigitArgs (printU32ThroughGraphics 1024 0xDEADBEEF ⟨0, 0, []⟩).trace) =
        0xDEADBEEF :=
  ⟨by norm_num, (printU32_roundtrip 1024 0 0 0xDEADBEEF (by norm_num)).2.2.1⟩

/-! ## `printU32ThroughGraphics` on one row -/

theorem printHexDigit_noWrap (H digit c r : Nat) (t : List Event)
    (hc : c + 1 ≤ H / 20) (hc2 : c + 1 < 2 ^ 32) :
    printHexDigitThroughGraphics H digit ⟨c, r, t⟩ = ⟨c + 1, r, t ++ digitEvents digit c r⟩ := by
  have h1 : toUINT32 (c + 1) = c + 1 := by simp only [toUINT32]; omega
  have h2 : ¬ (c + 1 > H / 20) := by omega
  simp [printHexDigit_eq, h1, h2]

theorem printU32_noWrap (H u c r : Nat) (t : List Event)
    (hc : c + 8 ≤ H / 20) (hc2 : c + 8 < 2 ^ 32) :
    printU32ThroughGraphics H u ⟨c, r, t⟩ =
      ⟨0, toUINT32 (r + 1),
        t ++ ((List.range 8).flatMap fun k => digitEvents (nibble u k) (c + k) r) ++
          [Event.callLn]⟩ := by
  simp only [printU32ThroughGraphics, List.foldl, toUINT8_nibble]
  rw [printHexDigit_noWrap H _ c r _ (by omega) (by omega),
    printHexDigit_noWrap H _ (c + 1) r _ (by omega) (by omega),
    printHexDigit_noWrap H _ (c + 1 + 1) r _ (by omega) (by omega),
    printHexDigit_noWrap H _ (c + 1 + 1 + 1) r _ (by omega) (by omega),
    printHexDigit_noWrap H _ (c + 1 + 1 + 1 + 1) r _ (by omega) (by omega),
    printHexDigit_noWrap H _ (c + 1 + 1 + 1 + 1 + 1) r _ (by omega) (by omega),
    printHexDigit_noWrap H _ (c + 1 + 1 + 1 + 1 + 1 + 1) r _ (by omega) (by omega),
    printHexDigit_noWrap H _ (c + 1 + 1 + 1 + 1 + 1 + 1 + 1) r _ (by omega) (by omega)]
  simp [printLn_eq, List.range, List.range.loop, List.flatMap, nibble, Nat.add_assoc]

theorem trace_printHexDigit (H digit c r : Nat) :
    (printHexDigitThroughGraphics H digit ⟨c, r, []⟩).trace = digitEvents digit c r := by
  rw [printHexDigit_eq]
  exact List.nil_append _

/-- Claim C2, amended: for every value `u` and every cursor `(c, r)` with
`c + 8 <= DESIRED_HREZ / 20`, as long as neither counter leaves the `UINT32`
range (`c + 8 < 2 ^ 32`, `r + 1 < 2 ^ 32`), `printU32ThroughGraphics (u)` does
exactly what `printHexDigitThroughGraphics` does for its `k`-th nibble with the
cursor at column `c + k` of row `r` (`k = 0..7`, left to right on one row), then
the line break, and leaves the cursor at column 0, row `r + 1`, whatever `u` is. -/
theorem printU32_oneRow (H u c r : Nat)
    (hc : c + 8 ≤ H / 20) (hc2 : c + 8 < 2 ^ 32) (hr : r + 1 < 2 ^ 32) :
    (printU32ThroughGraphics H u ⟨c, r, []⟩).trace =
        ((List.range 8).flatMap fun k =>
          (printHexDigitThroughGraphics H (nibble u k) ⟨c + k, r, []⟩).trace) ++
          [Event.callLn] ∧
      (printU32ThroughGraphics H u ⟨c, r, []⟩).COL = 0 ∧
      (printU32ThroughGraphics H u ⟨c, r, []⟩).ROW = r + 1 := by
  have h1 : toUINT32 (r + 1) = r + 1 := by simp only [toUINT32]; omega
  have h : (fun k => (printHexDigitThroughGraphics H (nibble u k) ⟨c + k, r, []⟩).trace) =
      fun k => digitEvents (nibble u k) (c + k) r := by
    funext k
    exact trace_printHexDigit H _ _ _
  rw [h, printU32_noWrap H u c r [] hc hc2]
  exact ⟨congrArg (fun l => l ++ [Event.callLn]) (List.nil_append _), rfl, h1⟩

/-- Witness of C2: `0xDEADBEEF` printed from cursor `(0, 0)` ends at `(0, 1)`. -/
theorem printU32_oneRow_witness :
    (0 + 8 ≤ 1024 / 20) ∧ (0 + 8 < 2 ^ 32) ∧ (0 + 1 < 2 ^ 32) ∧
      (printU32ThroughGraphics 1024 0xDEADBEEF ⟨0, 0, []⟩).COL = 0 ∧
      (printU32ThroughGraphics 1024 0xDEADBEEF ⟨0, 0, []⟩).ROW = 0 + 1 :=
  ⟨by norm_num, by norm_num, by norm_num,
    (printU32_oneRow 1024 0xDEADBEEF 0 0 (by norm_num) (by norm_num) (by norm_num)).2⟩

/-- Counterexample to C2 as stated: from row `2 ^ 32 - 1` the `UINT32` counter
`ROW` wraps, so the cursor does not end in row `r + 1`. -/
theorem printU32_oneRow_counterexample :
    (0 + 8 ≤ 1024 / 20) ∧
      (printU32ThroughGraphics 1024 0xDEADBEEF ⟨0, 4294967295, []⟩).ROW ≠ 4294967295 + 1 := by
  refine ⟨by norm_num, ?_⟩
  have h := congrArg State.ROW
    (printU32_noWrap 1024 0xDEADBEEF 0 4294967295 [] (by norm_num) (by norm_num))
  have h2 : toUINT32 (4294967295 + 1) = 0 := by norm_num [toUINT32]
  rw [h, h2]
  norm_num

/-! ## The strokes of a glyph -/

theorem drawLineCalls_append (t t2 : List Event) :
    drawLineCalls (t ++ t2) = drawLineCalls t ++ drawLineCalls t2 := by
  simp [drawLineCalls]

theorem drawLineCalls_lineEvents (x0 y0 x1 y1 : Int) (color : Nat) :
    drawLineCalls (lineEvents x0 y0 x1 y1 color) = [(x0, y0, x1, y1, color)] := by
  simp [drawLineCalls, lineEvents, List.filterMap_cons, List.filterMap_eq_nil_iff]

theorem drawLineCalls_printHexDigit (H digit c r : Nat) :
    drawLineCalls (printHexDigitThroughGraphics H digit ⟨c, r, []⟩).trace =
      drawLineCalls (glyphEvents digit (cell_xs c) (cell_ys r) (cell_xe c) (cell_ye r)
        (cell_xc c) (cell_yc r) 0x00ffffff) := by
  rw [trace_printHexDigit]
  simp [digitEvents, drawLineCalls, List.filterMap_cons]

theorem toInt32_of_lt (n : Nat) (h : n < 2 ^ 31) : toInt32 n = (n : Int) := by
  have h1 : n % 2 ^ 32 = n := by omega
  simp only [toInt32, h1, if_pos h]

theorem toUINT32_of_lt (n : Nat) (h : n < 2 ^ 32) : toUINT32 n = n :=
  Nat.mod_eq_of_lt h

theorem toUINTN_of_lt (n : Nat) (h : n < 2 ^ 64) : toUINTN n = n :=
  Nat.mod_eq_of_lt h

theorem subUINT32_of_le (a b : Nat) (hb : b ≤ a) (ha : a < 2 ^ 32) : subUINT32 a b = a - b := by
  simp only [subUINT32]
  omega

theorem cell_xs_eq (c : Nat) (h : 20 * c + 17 < 2 ^ 31) : cell_xs c = 20 * c + 3 := by
  simp only [cell_xs, DIGIT_WIDTH, DIGIT_MARGIN]
  rw [toUINT32_of_lt (c * 20) (by omega), toUINT32_of_lt _ (by omega), toUINTN_of_lt _ (by omega)]
  omega

theorem cell_xe_eq (c : Nat) (h : 20 * c + 17 < 2 ^ 31) : cell_xe c = 20 * c + 17 := by
  simp only [cell_xe, DIGIT_WIDTH, DIGIT_MARGIN]
  rw [toUINT32_of_lt (c + 1) (by omega), toUINT32_of_lt _ (by omega),
    subUINT32_of_le _ _ (by omega) (by omega), toUINTN_of_lt _ (by omega)]
  omega

theorem cell_xc_eq (c : Nat) (h : 20 * c + 17 < 2 ^ 31) : cell_xc c = 20 * c + 10 := by
  simp only [cell_xc, cell_xs_eq c h, cell_xe_eq c h]
  rw [toUINTN_of_lt _ (by omega)]
  omega

theorem cell_ys_eq (r : Nat) (h : 40 * r + 37 < 2 ^ 31) : cell_ys r = 40 * r + 3 := by
  simp only [cell_ys, DIGIT_HEIGHT, DIGIT_MARGIN]
  rw [toUINT32_of_lt (r * 40) (by omega), toUINT32_of_lt _ (by omega), toUINTN_of_lt _ (by omega)]
  omega

theorem cell_ye_eq (r : Nat) (h : 40 * r + 37 < 2 ^ 31) : cell_ye r = 40 * r + 37 := by
  simp only [cell_ye, DIGIT_HEIGHT, DIGIT_MARGIN]
  rw [toUINT32_of_lt (r + 1) (by omega), toUINT32_of_lt _ (by omega),
    subUINT32_of_le _ _ (by omega) (by omega), toUINTN_of_lt _ (by omega)]
  omega

theorem cell_yc_eq (r : Nat) (h : 40 * r + 37 < 2 ^ 31) : cell_yc r = 40 * r + 20 := by
  simp only [cell_yc, cell_ys_eq r h, cell_ye_eq r h]
  rw [toUINTN_of_lt _ (by omega)]
  omega

theorem refPoints_eq (c r : Nat) :
    refPoints c r =
      ⟨20 * c + 3, 40 * r + 3, 20 * c + 17, 40 * r + 37, 20 * c + 10, 40 * r + 20⟩ := by
  simp only [refPoints, RefPoints.mk.injEq]
  refine ⟨trivial, trivial, ?_, ?_, ?_, ?_⟩ <;> omega

theorem drawDigit_default (digit xs ys xe ye xc yc color : Nat) (s : State) (h : 15 < digit) :
    drawDigit digit xs ys xe ye xc yc color s = line xs ys xe ye 0x00ff00ff s := by
  unfold drawDigit
  split <;> first | omega | rfl

theorem printHexDigit_COL (H digit : Nat) (s : State) :
    (printHexDigitThroughGraphics H digit s).COL =
      if toUINT32 (s.COL + 1) > H / 20 then 0 else toUINT32 (s.COL + 1) :=
  congrArg State.COL (printHexDigit_eq H digit s)

theorem printHexDigit_ROW (H digit : Nat) (s : State) :
    (printHexDigitThroughGraphics H digit s).ROW =
      if toUINT32 (s.COL + 1) > H / 20 then toUINT32 (s.ROW + 1) else s.ROW :=
  congrArg State.ROW (printHexDigit_eq H digit s)

/-- Claim C5: for every digit `d > 15` and every cursor `(c, r)`,
`printHexDigitThroughGraphics (d)` issues exactly one `drawLine` call, from the
top-left inset point `(xs, ys)` to the bottom-right inset point `(xe, ye)` of the
cell (`(20c+3, 40r+3)` to `(20c+17, 40r+37)` when these fit an `int`), in the
colour `0x00ff00ff`, which differs from the foreground `0x00ffffff`; the function
has no error result; and the cursor is advanced as for a valid nibble: `COL++` in
`UINT32`, then column 0 of the next row when the new column exceeds
`DESIRED_HREZ / 20`, that is `(0, r + 1)` if `c + 1 > H / 20` and `(c + 1, r)`
otherwise whenever the step overflows neither counter. -/
theorem printHexDigit_fallback (H d c r : Nat) (hd : 15 < d) :
    drawLineCalls (printHexDigitThroughGraphics H d ⟨c, r, []⟩).trace =
        [(toInt32 (cell_xs c), toInt32 (cell_ys r), toInt32 (cell_xe c), toInt32 (cell_ye r),
          0x00ff00ff)] ∧
      (0x00ff00ff : Nat) ≠ 0x00ffffff ∧
      (20 * c + 17 < 2 ^ 31 → 40 * r + 37 < 2 ^ 31 →
        drawLineCalls (printHexDigitThroughGraphics H d ⟨c, r, []⟩).trace =
          [(20 * (c : Int) + 3, 40 * (r : Int) + 3, 20 * (c : Int) + 17, 40 * (r : Int) + 37,
            0x00ff00ff)]) ∧
      (∀ d', d' ≤ 15 →
        (printHexDigitThroughGraphics H d ⟨c, r, []⟩).COL =
            (printHexDigitThroughGraphics H d' ⟨c, r, []⟩).COL ∧
          (printHexDigitThroughGraphics H d ⟨c, r, []⟩).ROW =
            (printHexDigitThroughGraphics H d' ⟨c, r, []⟩).ROW) ∧
      (printHexDigitThroughGraphics H d ⟨c, r, []⟩).COL =
        (if toUINT32 (c + 1) > H / 20 then 0 else toUINT32 (c + 1)) ∧
      (printHexDigitThroughGraphics H d ⟨c, r, []⟩).ROW =
        (if toUINT32 (c + 1) > H / 20 then toUINT32 (r + 1) else r) ∧
      (c + 1 < 2 ^ 32 → (c + 1 > H / 20 → r + 1 < 2 ^ 32) →
        ((printHexDigitThroughGraphics H d ⟨c, r, []⟩).COL,
            (printHexDigitThroughGraphics H d ⟨c, r, []⟩).ROW) =
          if c + 1 > H / 20 then (0, r + 1) else (c + 1, r)) := by
  have h : drawLineCalls (printHexDigitThroughGraphics H d ⟨c, r, []⟩).trace =
      [(toInt32 (cell_xs c), toInt32 (cell_ys r), toInt32 (cell_xe c), toInt32 (cell_ye r),
        0x00ff00ff)] := by
    rw [drawLineCalls_printHexDigit, glyphEvents, drawDigit_default _ _ _ _ _ _ _ _ _ hd, line_eq]
    exact drawLineCalls_lineEvents _ _ _ _ _
  refine ⟨h, by norm_num, ?_, ?_, printHexDigit_COL H d _, printHexDigit_ROW H d _, ?_⟩
  · intro hx hy
    rw [h, cell_xs_eq c hx, cell_xe_eq c hx, cell_ys_eq r hy, cell_ye_eq r hy,
      toInt32_of_lt _ (by omega), toInt32_of_lt _ (by omega), toInt32_of_lt _ (by omega),
      toInt32_of_lt _ (by omega)]
    push_cast
    rfl
  · intro d' _
    simp only [printHexDigit_COL, printHexDigit_ROW, and_self]
  · intro hc hr
    rw [printHexDigit_COL, printHexDigit_ROW]
    simp only [toUINT32_of_lt (c + 1) hc]
    by_cases hw : c + 1 > H / 20
    · simp only [if_pos hw, toUINT32_of_lt (r + 1) (hr hw)]
    · simp only [if_neg hw]

/-- Witness of C5 at `d = 16`, cursor `(0, 0)`: one diagonal, and the cursor moves
to `(1, 0)`. -/
theorem printHexDigit_fallback_witness :
    (15 < 16) ∧
      drawLineCalls (printHexDigitThroughGraphics 1024 16 ⟨0, 0, []⟩).trace =
        [(toInt32 (cell_xs 0), toInt32 (cell_ys 0), toInt32 (cell_xe 0), toInt32 (cell_ye 0),
          0x00ff00ff)] ∧
      ((printHexDigitThroughGraphics 1024 16 ⟨0, 0, []⟩).COL,
          (printHexDigitThroughGraphics 1024 16 ⟨0, 0, []⟩).ROW) =
        if 0 + 1 > 1024 / 20 then (0, 0 + 1) else (0 + 1, 0) :=
  ⟨by norm_num, (printHexDigit_fallback 1024 16 0 0 (by norm_num)).1,
    (printHexDigit_fallback 1024 16 0 0 (by norm_num)).2.2.2.2.2.2 (by norm_num) (by norm_num)⟩

theorem foldl_printHexDigit_cursor (H : Nat) (f : Nat → Nat) (l : List Nat) (s : State)
    (hr : s.ROW < 2 ^ 32) :
    ∃ w, w ≤ l.length ∧
      (l.foldl (fun s digit => printHexDigitThroughGraphics H (f digit) s) s).ROW =
        toUINT32 (s.ROW + w) := by
  induction l generalizing s with
  | nil => exact ⟨0, le_refl _, (toUINT32_of_lt _ hr).symm⟩
  | cons a l ih =>
    have hrow := printHexDigit_ROW H (f a) s
    have hlt : (printHexDigitThroughGraphics H (f a) s).ROW < 2 ^ 32 := by
      rw [hrow]
      split
      · exact Nat.mod_lt _ (by norm_num)
      · exact hr
    obtain ⟨w, hw, h⟩ := ih (printHexDigitThroughGraphics H (f a) s) hlt
    rw [List.foldl_cons, h]
    by_cases hwrap : toUINT32 (s.COL + 1) > H / 20
    · rw [if_pos hwrap] at hrow
      refine ⟨w + 1, by simp only [List.length_cons]; omega, ?_⟩
      rw [hrow]
      simp only [toUINT32]
      omega
    · rw [if_neg hwrap] at hrow
      refine ⟨w, by simp only [List.length_cons]; omega, ?_⟩
      rw [hrow]

theorem printU32_cursor (H u : Nat) (s : State) (hr : s.ROW < 2 ^ 32) :
    (printU32ThroughGraphics H u s).COL = 0 ∧
      ∃ w, w ≤ 8 ∧ (printU32ThroughGraphics H u s).ROW = toUINT32 (s.ROW + w + 1) := by
  obtain ⟨w, hw, h⟩ := foldl_printHexDigit_cursor H
    (fun digit => toUINT8 ((u >>> (4 * digit)) &&& 0x0f)) [7, 6, 5, 4, 3, 2, 1, 0] s hr
  simp only [printU32ThroughGraphics, printLn_eq]
  refine ⟨trivial, w, hw, ?_⟩
  rw [h]
  simp only [toUINT32]
  omega

theorem cursor_step_bounds (H d u c r : Nat) (t : List Event)
    (hc : c < 2 ^ 32) (hr : r + 1 < 2 ^ 32) :
    (r ≤ (printHexDigitThroughGraphics H d ⟨c, r, t⟩).ROW ∧
      (c ≤ (printHexDigitThroughGraphics H d ⟨c, r, t⟩).COL ∨
        (printHexDigitThroughGraphics H d ⟨c, r, t⟩).COL = 0) ∧
      (c + 1 < 2 ^ 32 → (printHexDigitThroughGraphics H d ⟨c, r, t⟩).COL = 0 →
        (printHexDigitThroughGraphics H d ⟨c, r, t⟩).ROW = r + 1)) ∧
    printLnThroughGraphics ⟨c, r, t⟩ = ⟨0, r + 1, t ++ [Event.callLn]⟩ ∧
    (r + 9 < 2 ^ 32 →
      r ≤ (printU32ThroughGraphics H u ⟨c, r, t⟩).ROW ∧
        (c ≤ (printU32ThroughGraphics H u ⟨c, r, t⟩).COL ∨
          (printU32ThroughGraphics H u ⟨c, r, t⟩).COL = 0)) := by
  have h2 : toUINT32 (r + 1) = r + 1 := toUINT32_of_lt _ hr
  refine ⟨?_, ?_, ?_⟩
  · rw [printHexDigit_COL, printHexDigit_ROW]
    simp only [h2]
    by_cases h : toUINT32 (c + 1) > H / 20
    · simp only [if_pos h]
      refine ⟨Nat.le_succ r, Or.inr ?_, fun _ _ => ?_⟩ <;> trivial
    · simp only [if_neg h]
      by_cases hc1 : c + 1 < 2 ^ 32
      · rw [toUINT32_of_lt _ hc1]
        exact ⟨le_refl r, Or.inl (Nat.le_succ c),
          fun _ h0 => absurd h0 (Nat.succ_ne_zero c)⟩
      · have h0 : toUINT32 (c + 1) = 0 := by
          simp only [toUINT32]
          omega
        rw [h0]
        exact ⟨le_refl r, Or.inr rfl, fun h1 => absurd h1 hc1⟩
  · rw [printLn_eq]
    simp only [h2]
  · intro hr9
    obtain ⟨hcol, w, hw, hrow⟩ := printU32_cursor H u ⟨c, r, t⟩ (by simp only; omega)
    rw [hcol, hrow]
    have h3 : toUINT32 (r + w + 1) = r + w + 1 := toUINT32_of_lt _ (by omega)
    exact ⟨by simp only [h3]; omega, Or.inr rfl⟩


theorem runOps_invariant (H : Nat) (ops : List CursorOp) (s : State)
    (hc : s.COL ≤ H / 20) (hr : s.ROW < 2 ^ 32) :
    (runOps H ops s).COL ≤ H / 20 ∧ (runOps H ops s).ROW < 2 ^ 32 := by
  induction ops generalizing s with
  | nil => exact ⟨hc, hr⟩
  | cons op ops ih =>
    have hstep : (op.run H s).COL ≤ H / 20 ∧ (op.run H s).ROW < 2 ^ 32 := by
      cases op with
      | hexDigit digit =>
        simp only [CursorOp.run, printHexDigit_COL, printHexDigit_ROW]
        constructor
        · split
          · exact Nat.zero_le _
          · omega
        · split
          · exact Nat.mod_lt _ (by norm_num)
          · exact hr
      | ln =>
        simp only [CursorOp.run, printLn_eq]
        exact ⟨Nat.zero_le _, Nat.mod_lt _ (by norm_num)⟩
      | u32 u =>
        obtain ⟨h1, w, -, h2⟩ := printU32_cursor H u s hr
        simp only [CursorOp.run, h1, h2]
        exact ⟨Nat.zero_le _, Nat.mod_lt _ (by norm_num)⟩
    exact ih (op.run H s) hstep.1 hstep.2

/-- Claim C7: for every cursor state that a run of cursor operations reaches from
the initial state (`DESIRED_HREZ` being a 32 bit resolution), with no overflow of
the row counter: after `printHexDigitThroughGraphics`, `printLnThroughGraphics`
and `printU32ThroughGraphics` the row is at least the row before and the column is
at least the column before or is 0; a `printHexDigitThroughGraphics` step that sets
the column to 0 increases the row by exactly one; `printLnThroughGraphics` yields
`(0, row + 1)` and logs nothing but its own entry, so it draws nothing;
`printU32ThroughGraphics` ends in column 0 after advancing the row `w + 1` times
for some `w <= 8`, so it cannot overflow the row counter when `row + 9 < 2 ^ 32`. -/
theorem cursor_monotone_reachable (H : Nat) (ops : List CursorOp) (d u : Nat) (s : State)
    (hH : H < 2 ^ 32) (hs : s = runOps H ops initialState) :
    (s.ROW + 1 < 2 ^ 32 →
      s.ROW ≤ (printHexDigitThroughGraphics H d s).ROW ∧
        (s.COL ≤ (printHexDigitThroughGraphics H d s).COL ∨
          (printHexDigitThroughGraphics H d s).COL = 0) ∧
        ((printHexDigitThroughGraphics H d s).COL = 0 →
          (printHexDigitThroughGraphics H d s).ROW = s.ROW + 1)) ∧
      (s.ROW + 1 < 2 ^ 32 →
        printLnThroughGraphics s = ⟨0, s.ROW + 1, s.trace ++ [Event.callLn]⟩) ∧
      (∃ w, w ≤ 8 ∧ (printU32ThroughGraphics H u s).COL = 0 ∧
        (s.ROW + w + 1 < 2 ^ 32 →
          (printU32ThroughGraphics H u s).ROW = s.ROW + w + 1 ∧
            s.ROW ≤ (printU32ThroughGraphics H u s).ROW)) ∧
      (s.ROW + 9 < 2 ^ 32 →
        s.ROW ≤ (printU32ThroughGraphics H u s).ROW ∧
          (s.COL ≤ (printU32ThroughGraphics H u s).COL ∨
            (printU32ThroughGraphics H u s).COL = 0)) := by
  obtain ⟨hcol, hrow⟩ := runOps_invariant H ops initialState (Nat.zero_le _)
    (by simp [initialState])
  rw [← hs] at hcol hrow
  have hc1 : s.COL + 1 < 2 ^ 32 := by omega
  obtain ⟨c, r, t⟩ := s
  simp only at hcol hrow hc1
  refine ⟨?_, ?_, ?_, ?_⟩
  · intro hr1
    obtain ⟨⟨h1, h2, h3⟩, -, -⟩ := cursor_step_bounds H d u c r t (by omega) hr1
    exact ⟨h1, h2, h3 hc1⟩
  · intro hr1
    exact (cursor_step_bounds H d u c r t (by omega) hr1).2.1
  · obtain ⟨hc0, w, hw, hrw⟩ := printU32_cursor H u ⟨c, r, t⟩ hrow
    refine ⟨w, hw, hc0, ?_⟩
    simp only at hrw ⊢
    intro hno
    have e : (printU32ThroughGraphics H u ⟨c, r, t⟩).ROW = r + w + 1 := by
      rw [hrw]
      exact toUINT32_of_lt _ hno
    exact ⟨e, by rw [e]; omega⟩
  · obtain ⟨hc0, w, hw, hrw⟩ := printU32_cursor H u ⟨c, r, t⟩ hrow
    simp only at hrw ⊢
    intro hno
    have e : (printU32ThroughGraphics H u ⟨c, r, t⟩).ROW = r + w + 1 := by
      rw [hrw]
      exact toUINT32_of_lt _ (by omega)
    exact ⟨by rw [e]; omega, Or.inr hc0⟩

/-- Witness of C7: the state after one value printed on a 1024 pixel wide grid. -/
theorem cursor_monotone_reachable_witness :
    (1024 < 2 ^ 32) ∧
      (runOps 1024 [CursorOp.u32 0xDEADBEEF] initialState =
        runOps 1024 [CursorOp.u32 0xDEADBEEF] initialState) ∧
      ((runOps 1024 [CursorOp.u32 0xDEADBEEF] initialState).ROW + 1 < 2 ^ 32 →
        printLnThroughGraphics (runOps 1024 [CursorOp.u32 0xDEADBEEF] initialState) =
          ⟨0, (runOps 1024 [CursorOp.u32 0xDEADBEEF] initialState).ROW + 1,
            (runOps 1024 [CursorOp.u32 0xDEADBEEF] initialState).trace ++ [Event.callLn]⟩) :=
  ⟨by norm_num, rfl,
    (cursor_monotone_reachable 1024 [CursorOp.u32 0xDEADBEEF] 3 0xDEADBEEF _ (by norm_num)
      rfl).2.1⟩

/-! ## The line rasterizer -/

theorem pixelWrites_map_write (x0 y0 x1 y1 : Int) (color : Nat) (l : List Nat) :
    pixelWrites (l.map fun (i : Nat) =>
        Event.write (x0 + ((x1 - x0) * (i : Int)).tdiv 100)
          (y0 + ((y1 - y0) * (i : Int)).tdiv 100) color) =
      l.map (sample x0 y0 x1 y1 color) := by
  induction l with
  | nil => rfl
  | cons i l ih =>
    simp only [pixelWrites] at ih
    simp only [pixelWrites, List.map_cons, List.filterMap_cons, ih, sample]

theorem pixelWrites_drawLine (x0 y0 x1 y1 : Int) (color c r : Nat) :
    pixelWrites (drawLine x0 y0 x1 y1 color ⟨c, r, []⟩).trace =
      (List.range 100).map (sample x0 y0 x1 y1 color) := by
  rw [drawLine_eq]
  simp only [List.nil_append, lineEvents]
  exact pixelWrites_map_write x0 y0 x1 y1 color (List.range 100)

theorem sample_degenerate (x0 y0 : Int) (color i : Nat) :
    sample x0 y0 x0 y0 color i = (x0, y0, color) := by
  simp [sample]

/-- Claim C8: for every pixel coordinate `(x0, y0)` and colour `c`,
`drawLine (x0, y0, x0, y0, c)` performs 100 stores, every one of them the store of
`c` to the pixel `(x0, y0)`; no other pixel is written. -/
theorem drawLine_degenerate (x0 y0 : Int) (color c r : Nat) :
    pixelWrites (drawLine x0 y0 x0 y0 color ⟨c, r, []⟩).trace =
        List.replicate 100 (x0, y0, color) ∧
      ∀ p ∈ pixelWrites (drawLine x0 y0 x0 y0 color ⟨c, r, []⟩).trace, p = (x0, y0, color) := by
  have h : pixelWrites (drawLine x0 y0 x0 y0 color ⟨c, r, []⟩).trace =
      List.replicate 100 (x0, y0, color) := by
    rw [pixelWrites_drawLine, List.eq_replicate_iff]
    refine ⟨by simp, ?_⟩
    intro p hp
    obtain ⟨i, -, rfl⟩ := List.mem_map.mp hp
    exact sample_degenerate x0 y0 color i
  refine ⟨h, ?_⟩
  intro p hp
  rw [h] at hp
  exact List.eq_of_mem_replicate hp

theorem tdiv_mul_bounds (d : Int) (i : Nat) (hi : i < 100) :
    (0 ≤ d → 0 ≤ (d * (i : Int)).tdiv 100 ∧ (d * (i : Int)).tdiv 100 ≤ d) ∧
      (d ≤ 0 → d ≤ (d * (i : Int)).tdiv 100 ∧ (d * (i : Int)).tdiv 100 ≤ 0) := by
  have hi0 : (0 : Int) ≤ (i : Int) := Int.ofNat_nonneg i
  have hi1 : (i : Int) ≤ 99 := by omega
  constructor
  · intro hd
    have hp0 : 0 ≤ d * (i : Int) := mul_nonneg hd hi0
    have hp1 : d * (i : Int) ≤ 99 * d := by nlinarith
    rw [Int.tdiv_eq_ediv hp0 (by norm_num)]
    omega
  · intro hd
    have hq0 : 0 ≤ (-d) * (i : Int) := mul_nonneg (by omega) hi0
    have hq1 : (-d) * (i : Int) ≤ 99 * (-d) := by nlinarith
    have e : d * (i : Int) = -((-d) * (i : Int)) := by ring
    rw [e, Int.neg_tdiv, Int.tdiv_eq_ediv hq0 (by norm_num)]
    omega

theorem tdiv_last (d : Int) (h : |d| ≤ 100) : |d - (d * ((99 : Nat) : Int)).tdiv 100| ≤ 1 := by
  obtain ⟨h1, h2⟩ := abs_le.mp h
  rw [abs_le]
  by_cases hd : 0 ≤ d
  · rw [Int.tdiv_eq_ediv (by push_cast; omega) (by norm_num)]
    push_cast
    omega
  · have e : d * ((99 : Nat) : Int) = -((-d) * 99) := by push_cast; ring
    rw [e, Int.neg_tdiv, Int.tdiv_eq_ediv (by omega) (by norm_num)]
    omega

theorem sample_in_box (x0 y0 x1 y1 : Int) (color i : Nat) (hi : i < 100) :
    min x0 x1 ≤ (sample x0 y0 x1 y1 color i).1 ∧ (sample x0 y0 x1 y1 color i).1 ≤ max x0 x1 ∧
      min y0 y1 ≤ (sample x0 y0 x1 y1 color i).2.1 ∧
      (sample x0 y0 x1 y1 color i).2.1 ≤ max y0 y1 := by
  have hx := tdiv_mul_bounds (x1 - x0) i hi
  have hy := tdiv_mul_bounds (y1 - y0) i hi
  simp only [sample]
  refine ⟨?_, ?_, ?_, ?_⟩
  · rcases le_total x0 x1 with h | h
    · have := (hx.1 (by omega)).1
      rw [min_eq_left h]; omega
    · have := (hx.2 (by omega)).1
      rw [min_eq_right h]; omega
  · rcases le_total x0 x1 with h | h
    · have := (hx.1 (by omega)).2
      rw [max_eq_right h]; omega
    · have := (hx.2 (by omega)).2
      rw [max_eq_left h]; omega
  · rcases le_total y0 y1 with h | h
    · have := (hy.1 (by omega)).1
      rw [min_eq_left h]; omega
    · have := (hy.2 (by omega)).1
      rw [min_eq_right h]; omega
  · rcases le_total y0 y1 with h | h
    · have := (hy.1 (by omega)).2
      rw [max_eq_right h]; omega
    · have := (hy.2 (by omega)).2
      rw [max_eq_left h]; omega

/-- Claim C9: for every segment with `|x1 - x0| <= 100` and `|y1 - y0| <= 100`, the
first store of `drawLine (x0, y0, x1, y1, c)` is to the start pixel `(x0, y0)`, its
last store is to a pixel within one pixel of `(x1, y1)` in each coordinate, and
every store is to a pixel of the bounding box of the two end points. -/
theorem drawLine_short (x0 y0 x1 y1 : Int) (color c r : Nat)
    (hx : |x1 - x0| ≤ 100) (hy : |y1 - y0| ≤ 100) :
    (pixelWrites (drawLine x0 y0 x1 y1 color ⟨c, r, []⟩).trace).head? =
        some (x0, y0, color) ∧
      (∃ x y, (pixelWrites (drawLine x0 y0 x1 y1 color ⟨c, r, []⟩).trace).getLast? =
          some (x, y, color) ∧ |x1 - x| ≤ 1 ∧ |y1 - y| ≤ 1) ∧
      ∀ p ∈ pixelWrites (drawLine x0 y0 x1 y1 color ⟨c, r, []⟩).trace,
        min x0 x1 ≤ p.1 ∧ p.1 ≤ max x0 x1 ∧ min y0 y1 ≤ p.2.1 ∧ p.2.1 ≤ max y0 y1 := by
  rw [pixelWrites_drawLine]
  refine ⟨?_, ?_, ?_⟩
  · rw [List.head?_map]
    simp [List.head?_range, sample]
  · refine ⟨x0 + ((x1 - x0) * ((99 : Nat) : Int)).tdiv 100,
      y0 + ((y1 - y0) * ((99 : Nat) : Int)).tdiv 100, ?_, ?_, ?_⟩
    · rw [List.getLast?_map, List.getLast?_range]
      simp [sample]
    · have := tdiv_last (x1 - x0) hx
      rwa [show x1 - (x0 + ((x1 - x0) * ((99 : Nat) : Int)).tdiv 100) =
        (x1 - x0) - ((x1 - x0) * ((99 : Nat) : Int)).tdiv 100 by ring]
    · have := tdiv_last (y1 - y0) hy
      rwa [show y1 - (y0 + ((y1 - y0) * ((99 : Nat) : Int)).tdiv 100) =
        (y1 - y0) - ((y1 - y0) * ((99 : Nat) : Int)).tdiv 100 by ring]
  · intro p hp
    obtain ⟨i, hi, rfl⟩ := List.mem_map.mp hp
    exact sample_in_box x0 y0 x1 y1 color i (List.mem_range.mp hi)

/-- Witness of C9: the segment from `(0, 0)` to `(99, 0)` of the specification. -/
theorem drawLine_short_witness :
    (|(99 : Int) - 0| ≤ 100) ∧ (|(0 : Int) - 0| ≤ 100) ∧
      (pixelWrites (drawLine 0 0 99 0 0x00ffffff ⟨0, 0, []⟩).trace).head? =
        some (0, 0, 0x00ffffff) ∧
      (∃ x y, (pixelWrites (drawLine 0 0 99 0 0x00ffffff ⟨0, 0, []⟩).trace).getLast? =
          some (x, y, 0x00ffffff) ∧ |99 - x| ≤ 1 ∧ |0 - y| ≤ 1) ∧
      ∀ p ∈ pixelWrites (drawLine 0 0 99 0 0x00ffffff ⟨0, 0, []⟩).trace,
        min 0 99 ≤ p.1 ∧ p.1 ≤ max 0 99 ∧ min 0 0 ≤ p.2.1 ∧ p.2.1 ≤ max 0 0 :=
  ⟨by norm_num, by norm_num,
    drawLine_short 0 0 99 0 0x00ffffff 0 0 (by norm_num) (by norm_num)⟩

/-! ## The line rasterizer in 32-bit `int` arithmetic -/

theorem wrapInt32_of_range (z : Int) (h : -2 ^ 31 ≤ z ∧ z < 2 ^ 31) : wrapInt32 z = z := by
  unfold wrapInt32
  omega

theorem foldl_drawLineStepInt32 (x0 y0 x1 y1 : Int) (color : Nat) (l : List Nat) (s : State) :
    l.foldl (drawLineStepInt32 x0 y0 x1 y1 color) s =
      ⟨s.COL, s.ROW, s.trace ++ l.map fun (i : Nat) =>
        Event.write (sampleInt32 x0 y0 x1 y1 color i).1 (sampleInt32 x0 y0 x1 y1 color i).2.1
          color⟩ := by
  induction l generalizing s with
  | nil => simp
  | cons i l ih => simp [List.foldl_cons, ih, drawLineStepInt32, State.emit, sampleInt32]

theorem pixelWrites_map_writeInt32 (x0 y0 x1 y1 : Int) (color : Nat) (l : List Nat) :
    pixelWrites (l.map fun (i : Nat) =>
        Event.write (sampleInt32 x0 y0 x1 y1 color i).1 (sampleInt32 x0 y0 x1 y1 color i).2.1
          color) =
      l.map (sampleInt32 x0 y0 x1 y1 color) := by
  induction l with
  | nil => rfl
  | cons i l ih =>
    simp only [pixelWrites] at ih
    simp only [pixelWrites, List.map_cons, List.filterMap_cons]
    rw [ih]
    rfl

theorem pixelWrites_drawLineInt32 (x0 y0 x1 y1 : Int) (color c r : Nat) :
    pixelWrites (drawLineInt32 x0 y0 x1 y1 color ⟨c, r, []⟩).trace =
      (List.range 100).map (sampleInt32 x0 y0 x1 y1 color) := by
  rw [drawLineInt32, foldl_drawLineStepInt32]
  simp only [State.emit, List.nil_append, List.singleton_append, pixelWrites,
    List.filterMap_cons]
  exact pixelWrites_map_writeInt32 x0 y0 x1 y1 color (List.range 100)

theorem mul_index_range (d : Int) (i : Nat) (hi : i < 100) (hd : |d| * 99 < 2 ^ 31) :
    -2 ^ 31 ≤ d * (i : Int) ∧ d * (i : Int) < 2 ^ 31 := by
  have hi0 : (0 : Int) ≤ (i : Int) := Int.ofNat_nonneg i
  have hi1 : (i : Int) ≤ 99 := by omega
  rcases le_total 0 d with h | h
  · rw [abs_of_nonneg h] at hd
    have hp0 : 0 ≤ d * (i : Int) := mul_nonneg h hi0
    have hp1 : d * (i : Int) ≤ d * 99 := by nlinarith
    omega
  · rw [abs_of_nonpos h] at hd
    have hq0 : 0 ≤ (-d) * (i : Int) := mul_nonneg (by omega) hi0
    have hq1 : (-d) * (i : Int) ≤ (-d) * 99 := by nlinarith
    have e : d * (i : Int) = -((-d) * (i : Int)) := by ring
    omega

theorem axisInt32_eq (a b : Int) (i : Nat) (hi : i < 100)
    (ha : -2 ^ 31 ≤ a ∧ a < 2 ^ 31) (hb : -2 ^ 31 ≤ b ∧ b < 2 ^ 31)
    (hd : |b - a| * 99 < 2 ^ 31) :
    wrapInt32 (a + (wrapInt32 (wrapInt32 (b - a) * (i : Int))).tdiv 100) =
      a + ((b - a) * (i : Int)).tdiv 100 := by
  have hd1 : -2 ^ 31 ≤ b - a ∧ b - a < 2 ^ 31 := by
    have h0 : 0 ≤ |b - a| := abs_nonneg _
    have h1 := abs_le.mp (le_refl |b - a|)
    omega
  rw [wrapInt32_of_range _ hd1, wrapInt32_of_range _ (mul_index_range _ i hi hd)]
  apply wrapInt32_of_range
  obtain ⟨hp, hn⟩ := tdiv_mul_bounds (b - a) i hi
  rcases le_total 0 (b - a) with h | h
  · have := hp h
    omega
  · have := hn h
    omega

theorem sampleInt32_eq_sample (x0 y0 x1 y1 : Int) (color i : Nat) (hi : i < 100)
    (hx0 : -2 ^ 31 ≤ x0 ∧ x0 < 2 ^ 31) (hy0 : -2 ^ 31 ≤ y0 ∧ y0 < 2 ^ 31)
    (hx1 : -2 ^ 31 ≤ x1 ∧ x1 < 2 ^ 31) (hy1 : -2 ^ 31 ≤ y1 ∧ y1 < 2 ^ 31)
    (hdx : |x1 - x0| * 99 < 2 ^ 31) (hdy : |y1 - y0| * 99 < 2 ^ 31) :
    sampleInt32 x0 y0 x1 y1 color i = sample x0 y0 x1 y1 color i := by
  simp only [sampleInt32, sample, axisInt32_eq x0 x1 i hi hx0 hx1 hdx,
    axisInt32_eq y0 y1 i hi hy0 hy1 hdy]

theorem drawLineInt32_eq_drawLine (x0 y0 x1 y1 : Int) (color : Nat) (s : State)
    (hx0 : -2 ^ 31 ≤ x0 ∧ x0 < 2 ^ 31) (hy0 : -2 ^ 31 ≤ y0 ∧ y0 < 2 ^ 31)
    (hx1 : -2 ^ 31 ≤ x1 ∧ x1 < 2 ^ 31) (hy1 : -2 ^ 31 ≤ y1 ∧ y1 < 2 ^ 31)
    (hdx : |x1 - x0| * 99 < 2 ^ 31) (hdy : |y1 - y0| * 99 < 2 ^ 31) :
    drawLineInt32 x0 y0 x1 y1 color s = drawLine x0 y0 x1 y1 color s := by
  rw [drawLineInt32, drawLine, foldl_drawLineStepInt32, foldl_drawLineStep]
  congr 1
  congr 1
  apply List.map_congr_left
  intro i hi
  have h := sampleInt32_eq_sample x0 y0 x1 y1 color i (List.mem_range.mp hi) hx0 hy0 hx1 hy1
    hdx hdy
  rw [h]
  rfl

theorem sampleInt32_zero (x0 y0 x1 y1 : Int) (color : Nat)
    (hx0 : -2 ^ 31 ≤ x0 ∧ x0 < 2 ^ 31) (hy0 : -2 ^ 31 ≤ y0 ∧ y0 < 2 ^ 31) :
    sampleInt32 x0 y0 x1 y1 color 0 = (x0, y0, color) := by
  have h0 : wrapInt32 0 = 0 := by decide
  simp only [sampleInt32, Nat.cast_zero, mul_zero, h0, Int.zero_tdiv, add_zero,
    wrapInt32_of_range x0 hx0, wrapInt32_of_range y0 hy0]

/-- Claim C10, amended: every call of `drawLine` (its arguments being `int`
values), run in 32-bit `int` arithmetic, performs exactly 100 stores, all in the
given colour, hence to at most 100 distinct pixels; the `i`-th store
(`i = 0..99`) has `x = x0 + ((x1-x0)*i)/100` when `99 * |x1 - x0| < 2 ^ 31` and
`y = y0 + ((y1-y0)*i)/100` when `99 * |y1 - y0| < 2 ^ 31`, the division
truncating toward zero, and under both bounds the run equals the run in exact
arithmetic; and a horizontal segment (`y0 = y1`) with `x1 - x0 > 100` leaves a
pixel `(x, y0)` with `x0 < x < x1` unwritten. -/
theorem drawLine_sampling (x0 y0 x1 y1 : Int) (color c r : Nat)
    (hx0 : -2 ^ 31 ≤ x0 ∧ x0 < 2 ^ 31) (hy0 : -2 ^ 31 ≤ y0 ∧ y0 < 2 ^ 31)
    (hx1 : -2 ^ 31 ≤ x1 ∧ x1 < 2 ^ 31) (hy1 : -2 ^ 31 ≤ y1 ∧ y1 < 2 ^ 31) :
    (pixelWrites (drawLineInt32 x0 y0 x1 y1 color ⟨c, r, []⟩).trace).length = 100 ∧
      (∀ i : Nat, i < 100 → ∃ p,
        (pixelWrites (drawLineInt32 x0 y0 x1 y1 color ⟨c, r, []⟩).trace)[i]? = some p ∧
          p.2.2 = color ∧
          (|x1 - x0| * 99 < 2 ^ 31 → p.1 = x0 + ((x1 - x0) * (i : Int)).tdiv 100) ∧
          (|y1 - y0| * 99 < 2 ^ 31 → p.2.1 = y0 + ((y1 - y0) * (i : Int)).tdiv 100)) ∧
      (pixelWrites (drawLineInt32 x0 y0 x1 y1 color ⟨c, r, []⟩).trace).toFinset.card ≤ 100 ∧
      (|x1 - x0| * 99 < 2 ^ 31 → |y1 - y0| * 99 < 2 ^ 31 →
        drawLineInt32 x0 y0 x1 y1 color ⟨c, r, []⟩ = drawLine x0 y0 x1 y1 color ⟨c, r, []⟩) ∧
      (y0 = y1 → x1 - x0 > 100 →
        ∃ x, x0 < x ∧ x < x1 ∧
          ∀ col, (x, y0, col) ∉
            pixelWrites (drawLineInt32 x0 y0 x1 y1 color ⟨c, r, []⟩).trace) := by
  have hW := pixelWrites_drawLineInt32 x0 y0 x1 y1 color c r
  have hlen : (pixelWrites (drawLineInt32 x0 y0 x1 y1 color ⟨c, r, []⟩).trace).length = 100 := by
    rw [hW, List.length_map, List.length_range]
  refine ⟨hlen, ?_, ?_, ?_, ?_⟩
  · intro i hi
    refine ⟨sampleInt32 x0 y0 x1 y1 color i, ?_, rfl, ?_, ?_⟩
    · rw [hW, List.getElem?_map, List.getElem?_range hi, Option.map_some']
    · intro hd
      exact axisInt32_eq x0 x1 i hi hx0 hx1 hd
    · intro hd
      exact axisInt32_eq y0 y1 i hi hy0 hy1 hd
  · exact hlen ▸ List.toFinset_card_le _
  · intro hdx hdy
    exact drawLineInt32_eq_drawLine x0 y0 x1 y1 color _ hx0 hy0 hx1 hy1 hdx hdy
  · intro _ hdx
    by_contra hall
    push_neg at hall
    have hsub : Finset.Ioo x0 x1 ⊆ ((Finset.range 100).erase 0).image
        (fun (i : Nat) => (sampleInt32 x0 y0 x1 y1 color i).1) := by
      intro x hx
      obtain ⟨hxa, hxb⟩ := Finset.mem_Ioo.mp hx
      obtain ⟨col, hcol⟩ := hall x hxa hxb
      rw [hW] at hcol
      obtain ⟨i, hi, hs⟩ := List.mem_map.mp hcol
      have hxi : (sampleInt32 x0 y0 x1 y1 color i).1 = x := congrArg Prod.fst hs
      refine Finset.mem_image.mpr ⟨i, Finset.mem_erase.mpr ⟨?_, ?_⟩, hxi⟩
      · rintro rfl
        rw [sampleInt32_zero x0 y0 x1 y1 color hx0 hy0] at hxi
        simp only at hxi
        omega
      · exact Finset.mem_range.mpr (List.mem_range.mp hi)
    have h1 := Finset.card_le_card hsub
    have h2 : (((Finset.range 100).erase 0).image
        (fun (i : Nat) => (sampleInt32 x0 y0 x1 y1 color i).1)).card ≤ 99 :=
      le_trans Finset.card_image_le (by simp)
    rw [Int.card_Ioo] at h1
    omega

/-- Witness of C10: the horizontal segment from `(0, 0)` to `(101, 0)` has a gap. -/
theorem drawLine_sampling_witness :
    ((-2 ^ 31 ≤ (0 : Int) ∧ (0 : Int) < 2 ^ 31) ∧
        (-2 ^ 31 ≤ (101 : Int) ∧ (101 : Int) < 2 ^ 31)) ∧
      ((0 : Int) = 0) ∧ ((101 : Int) - 0 > 100) ∧
      ∃ x : Int, 0 < x ∧ x < 101 ∧
        ∀ col, (x, (0 : Int), col) ∉
          pixelWrites (drawLineInt32 0 0 101 0 0x00ffffff ⟨0, 0, []⟩).trace :=
  ⟨⟨by norm_num, by norm_num⟩, rfl, by norm_num,
    (drawLine_sampling 0 0 101 0 0x00ffffff 0 0 (by norm_num) (by norm_num) (by norm_num)
      (by norm_num)).2.2.2.2 rfl (by norm_num)⟩

/-- Counterexample to C10 as stated: in `drawLine (0, 0, 30000000, 0, c)` the
product `(x1 - x0) * 72 = 2160000000` does not fit an `int`; in 32-bit arithmetic
it is `-2134967296`, so the store of step 72 goes to `x = -21349672`, not to
`x0 + ((x1-x0)*72)/100 = 21600000`. -/
theorem drawLine_sampling_counterexample :
    (pixelWrites (drawLineInt32 0 0 30000000 0 0x00ffffff ⟨0, 0, []⟩).trace)[72]? =
        some (-21349672, 0, 0x00ffffff) ∧
      sample 0 0 30000000 0 0x00ffffff 72 = (21600000, 0, 0x00ffffff) ∧
      (pixelWrites (drawLineInt32 0 0 30000000 0 0x00ffffff ⟨0, 0, []⟩).trace)[72]? ≠
        some (sample 0 0 30000000 0 0x00ffffff 72) := by
  have h1 : (pixelWrites (drawLineInt32 0 0 30000000 0 0x00ffffff ⟨0, 0, []⟩).trace)[72]? =
      some (-21349672, 0, 0x00ffffff) := by
    rw [pixelWrites_drawLineInt32, List.getElem?_map, List.getElem?_range (by norm_num),
      Option.map_some']
    decide
  have h2 : sample 0 0 30000000 0 0x00ffffff 72 = (21600000, 0, 0x00ffffff) := by decide
  refine ⟨h1, h2, ?_⟩
  rw [h1, h2]
  decide

/-! ## End points and connectedness of a rasterized line -/

theorem tdiv_mul_lt (d : Int) (i : Nat) (hi : i < 100) (hd : d ≠ 0) :
    (d * (i : Int)).tdiv 100 ≠ d := by
  have hi0 : (0 : Int) ≤ (i : Int) := Int.ofNat_nonneg i
  have hi1 : (i : Int) ≤ 99 := by omega
  rcases lt_or_gt_of_ne hd with h | h
  · have hq0 : 0 ≤ (-d) * (i : Int) := mul_nonneg (by omega) hi0
    have hq1 : (-d) * (i : Int) ≤ 99 * (-d) := by nlinarith
    have e : d * (i : Int) = -((-d) * (i : Int)) := by ring
    rw [e, Int.neg_tdiv, Int.tdiv_eq_ediv hq0 (by norm_num)]
    omega
  · have hp0 : 0 ≤ d * (i : Int) := mul_nonneg (by omega) hi0
    have hp1 : d * (i : Int) ≤ 99 * d := by nlinarith
    rw [Int.tdiv_eq_ediv hp0 (by norm_num)]
    omega

theorem tdiv_mul_step (d : Int) (i : Nat) (hd : |d| ≤ 100) :
    |(d * ((i + 1 : Nat) : Int)).tdiv 100 - (d * (i : Int)).tdiv 100| ≤ 1 := by
  obtain ⟨h1, h2⟩ := abs_le.mp hd
  have hi0 : (0 : Int) ≤ (i : Int) := Int.ofNat_nonneg i
  rw [abs_le]
  rcases le_total 0 d with h | h
  · have hp0 : 0 ≤ d * (i : Int) := mul_nonneg h hi0
    have e : d * ((i + 1 : Nat) : Int) = d * (i : Int) + d := by push_cast; ring
    rw [e, Int.tdiv_eq_ediv (by omega) (by norm_num), Int.tdiv_eq_ediv hp0 (by norm_num)]
    omega
  · have hq0 : 0 ≤ (-d) * (i : Int) := mul_nonneg (by omega) hi0
    have e1 : d * (i : Int) = -((-d) * (i : Int)) := by ring
    have e2 : d * ((i + 1 : Nat) : Int) = -((-d) * (i : Int) + (-d)) := by push_cast; ring
    rw [e2, e1, Int.neg_tdiv, Int.neg_tdiv, Int.tdiv_eq_ediv (by omega) (by norm_num),
      Int.tdiv_eq_ediv hq0 (by norm_num)]
    omega

theorem mem_pixelWrites_drawLine (x0 y0 x1 y1 : Int) (color c r : Nat) (p : Int × Int × Nat) :
    p ∈ pixelWrites (drawLine x0 y0 x1 y1 color ⟨c, r, []⟩).trace ↔
      ∃ i, i < 100 ∧ sample x0 y0 x1 y1 color i = p := by
  rw [pixelWrites_drawLine, List.mem_map]
  constructor
  · rintro ⟨i, hi, h⟩
    exact ⟨i, List.mem_range.mp hi, h⟩
  · rintro ⟨i, hi, h⟩
    exact ⟨i, List.mem_range.mpr hi, h⟩

/-- Claim C18: for all coordinates, the end point `(x1, y1)` is among the pixels that
`drawLine (x0, y0, x1, y1, c)` writes if and only if it equals the start point
`(x0, y0)`, and the start point is always written; so `drawLine (0, 0, 99, 0, c)`
does not write `(99, 0)` while `drawLine (99, 0, 0, 0, c)` does. -/
theorem drawLine_endpoint (x0 y0 x1 y1 : Int) (color c r : Nat) :
    ((∃ col, (x1, y1, col) ∈ pixelWrites (drawLine x0 y0 x1 y1 color ⟨c, r, []⟩).trace) ↔
        (x1, y1) = (x0, y0)) ∧
      (x0, y0, color) ∈ pixelWrites (drawLine x0 y0 x1 y1 color ⟨c, r, []⟩).trace ∧
      (∀ col, (99, 0, col) ∉ pixelWrites (drawLine 0 0 99 0 color ⟨c, r, []⟩).trace) ∧
      (99, 0, color) ∈ pixelWrites (drawLine 99 0 0 0 color ⟨c, r, []⟩).trace := by
  have hstart : ∀ a b a1 b1 : Int,
      (a, b, color) ∈ pixelWrites (drawLine a b a1 b1 color ⟨c, r, []⟩).trace := by
    intro a b a1 b1
    rw [mem_pixelWrites_drawLine]
    exact ⟨0, by norm_num, by simp [sample]⟩
  have hend : ∀ (a b a1 b1 : Int) (col : Nat),
      (a1, b1, col) ∈ pixelWrites (drawLine a b a1 b1 color ⟨c, r, []⟩).trace →
        (a1, b1) = (a, b) := by
    intro a b a1 b1 col h
    rw [mem_pixelWrites_drawLine] at h
    obtain ⟨i, hi, hs⟩ := h
    simp only [sample, Prod.mk.injEq] at hs
    obtain ⟨hx, hy, -⟩ := hs
    have ex : a1 = a := by
      by_contra hne
      exact tdiv_mul_lt (a1 - a) i hi (fun h0 => hne (by omega)) (by omega)
    have ey : b1 = b := by
      by_contra hne
      exact tdiv_mul_lt (b1 - b) i hi (fun h0 => hne (by omega)) (by omega)
    rw [ex, ey]
  refine ⟨⟨fun ⟨col, h⟩ => hend x0 y0 x1 y1 col h, ?_⟩, hstart x0 y0 x1 y1, ?_, hstart 99 0 0 0⟩
  · intro h
    obtain ⟨rfl, rfl⟩ := Prod.mk.inj h
    exact ⟨color, hstart x1 y1 x1 y1⟩
  · intro col h
    have := hend 0 0 99 0 col h
    simp at this

/-! ## Every store of a glyph belongs to one of its strokes -/

theorem pixelWrites_append (t t2 : List Event) :
    pixelWrites (t ++ t2) = pixelWrites t ++ pixelWrites t2 := by
  simp [pixelWrites]

theorem pixelWrites_lineEvents (x0 y0 x1 y1 : Int) (color : Nat) :
    pixelWrites (lineEvents x0 y0 x1 y1 color) = samplesOf (x0, y0, x1, y1, color) := by
  have h := pixelWrites_map_write x0 y0 x1 y1 color (List.range 100)
  simp only [pixelWrites] at h
  simp only [lineEvents, pixelWrites, List.filterMap_cons, h, samplesOf]

theorem pixelWrites_glyphEvents (digit xs ys xe ye xc yc color : Nat) :
    pixelWrites (glyphEvents digit xs ys xe ye xc yc color) =
      (drawLineCalls (glyphEvents digit xs ys xe ye xc yc color)).flatMap samplesOf := by
  unfold glyphEvents drawDigit
  split <;>
    simp only [line_eq, List.nil_append, pixelWrites_append, drawLineCalls_append,
      pixelWrites_lineEvents, drawLineCalls_lineEvents, List.flatMap_append, List.flatMap_cons,
      List.flatMap_nil, List.append_nil, List.append_assoc]

theorem pixelWrites_printHexDigit (H digit c r : Nat) :
    pixelWrites (printHexDigitThroughGraphics H digit ⟨c, r, []⟩).trace =
      (drawLineCalls (printHexDigitThroughGraphics H digit ⟨c, r, []⟩).trace).flatMap
        samplesOf := by
  rw [drawLineCalls_printHexDigit, ← pixelWrites_glyphEvents, trace_printHexDigit]
  simp only [digitEvents, pixelWrites, List.filterMap_cons]

theorem specStrokes_default (d : Nat) (p : RefPoints) (h : 15 < d) :
    specStrokes d p = [p.diagTLBR] := by
  unfold specStrokes
  split <;> first | omega | rfl

theorem drawLineCalls_glyph (H d c r : Nat)
    (hx : 20 * c + 17 < 2 ^ 31) (hy : 40 * r + 37 < 2 ^ 31) :
    drawLineCalls (printHexDigitThroughGraphics H d ⟨c, r, []⟩).trace =
      (specStrokes d (refPoints c r)).map
        (Stroke.call (if d ≤ 15 then 0x00ffffff else 0x00ff00ff)) := by
  rw [drawLineCalls_printHexDigit, cell_xs_eq c hx, cell_xe_eq c hx, cell_xc_eq c hx,
    cell_ys_eq r hy, cell_ye_eq r hy, cell_yc_eq r hy, refPoints_eq]
  have hxs : toInt32 (20 * c + 3) = 20 * (c : Int) + 3 := by
    rw [toInt32_of_lt _ (by omega)]; push_cast; ring
  have hxe : toInt32 (20 * c + 17) = 20 * (c : Int) + 17 := by
    rw [toInt32_of_lt _ (by omega)]; push_cast; ring
  have hxc : toInt32 (20 * c + 10) = 20 * (c : Int) + 10 := by
    rw [toInt32_of_lt _ (by omega)]; push_cast; ring
  have hys : toInt32 (40 * r + 3) = 40 * (r : Int) + 3 := by
    rw [toInt32_of_lt _ (by omega)]; push_cast; ring
  have hye : toInt32 (40 * r + 37) = 40 * (r : Int) + 37 := by
    rw [toInt32_of_lt _ (by omega)]; push_cast; ring
  have hyc : toInt32 (40 * r + 20) = 40 * (r : Int) + 20 := by
    rw [toInt32_of_lt _ (by omega)]; push_cast; ring
  have hq1 : toInt32 (toUINTN (20 * c + 3 + (20 * c + 10)) / 2) =
      (20 * (c : Int) + 3 + (20 * (c : Int) + 10)) / 2 := by
    rw [toUINTN_of_lt _ (by omega), toInt32_of_lt _ (by omega)]; push_cast; rfl
  have hq2 : toInt32 (toUINTN (20 * c + 17 + (20 * c + 10)) / 2) =
      (20 * (c : Int) + 17 + (20 * (c : Int) + 10)) / 2 := by
    rw [toUINTN_of_lt _ (by omega), toInt32_of_lt _ (by omega)]; push_cast; rfl
  have hq3 : toInt32 (toUINTN (40 * r + 3 + (40 * r + 20)) / 2) =
      (40 * (r : Int) + 3 + (40 * (r : Int) + 20)) / 2 := by
    rw [toUINTN_of_lt _ (by omega), toInt32_of_lt _ (by omega)]; push_cast; rfl
  have hq4 : toInt32 (toUINTN (40 * r + 37 + (40 * r + 20)) / 2) =
      (40 * (r : Int) + 37 + (40 * (r : Int) + 20)) / 2 := by
    rw [toUINTN_of_lt _ (by omega), toInt32_of_lt _ (by omega)]; push_cast; rfl
  by_cases hd : d ≤ 15
  · rw [if_pos hd]
    interval_cases d <;>
      simp [glyphEvents, drawDigit, line_eq, drawLineCalls_append, drawLineCalls_lineEvents,
        specStrokes, Stroke.call, Stroke.rev, RefPoints.top, RefPoints.bottom, RefPoints.left,
        RefPoints.right, RefPoints.middle, RefPoints.centre, RefPoints.leftUpper,
        RefPoints.rightLower, RefPoints.diagTRBL, hxs, hxe, hxc, hys, hye, hyc, hq1, hq2, hq3,
        hq4]
  · rw [if_neg hd, specStrokes_default _ _ (by omega), glyphEvents,
      drawDigit_default _ _ _ _ _ _ _ _ _ (by omega), line_eq]
    simp only [List.nil_append, drawLineCalls_lineEvents, hxs, hxe, hys, hye]
    simp [Stroke.call, RefPoints.diagTLBR]

theorem specStrokes_in_cell (d c r : Nat) :
    ∀ s ∈ specStrokes d (refPoints c r),
      (20 * (c : Int) + 3 ≤ s.1 ∧ s.1 ≤ 20 * (c : Int) + 17) ∧
        (40 * (r : Int) + 3 ≤ s.2.1 ∧ s.2.1 ≤ 40 * (r : Int) + 37) ∧
        (20 * (c : Int) + 3 ≤ s.2.2.1 ∧ s.2.2.1 ≤ 20 * (c : Int) + 17) ∧
        (40 * (r : Int) + 3 ≤ s.2.2.2 ∧ s.2.2.2 ≤ 40 * (r : Int) + 37) := by
  rw [refPoints_eq]
  by_cases hd : d ≤ 15
  · interval_cases d <;>
      simp [specStrokes, Stroke.rev, RefPoints.top, RefPoints.bottom, RefPoints.left,
        RefPoints.right, RefPoints.middle, RefPoints.centre, RefPoints.leftUpper,
        RefPoints.rightLower, RefPoints.diagTRBL] <;> omega
  · rw [specStrokes_default _ _ (by omega)]
    simp [RefPoints.diagTLBR]

theorem pixelWrites_in_cell (H d c r : Nat)
    (hx : 20 * c + 17 < 2 ^ 31) (hy : 40 * r + 37 < 2 ^ 31) :
    ∀ w ∈ pixelWrites (printHexDigitThroughGraphics H d ⟨c, r, []⟩).trace,
      (20 * (c : Int) + 3 ≤ w.1 ∧ w.1 ≤ 20 * (c : Int) + 17) ∧
        (40 * (r : Int) + 3 ≤ w.2.1 ∧ w.2.1 ≤ 40 * (r : Int) + 37) := by
  intro w hw
  rw [pixelWrites_printHexDigit, drawLineCalls_glyph H d c r hx hy] at hw
  obtain ⟨call, hcall, hws⟩ := List.mem_flatMap.mp hw
  obtain ⟨s, hs, rfl⟩ := List.mem_map.mp hcall
  obtain ⟨i, hi, rfl⟩ := List.mem_map.mp hws
  obtain ⟨⟨a1, a2⟩, ⟨b1, b2⟩, ⟨a3, a4⟩, ⟨b3, b4⟩⟩ := specStrokes_in_cell d c r s hs
  obtain ⟨h1, h2, h3, h4⟩ := sample_in_box s.1 s.2.1 s.2.2.1 s.2.2.2
    (if d ≤ 15 then 0x00ffffff else 0x00ff00ff) i (List.mem_range.mp hi)
  simp only [Stroke.call]
  exact ⟨⟨le_trans (le_min a1 a3) h1, le_trans h2 (max_le a2 a4)⟩,
    ⟨le_trans (le_min b1 b3) h3, le_trans h4 (max_le b2 b4)⟩⟩

/-- Claim C16: for every digit `d` (valid or not) and every cursor `(c, r)` whose
cell coordinates fit an `int` (`20c + 17 < 2 ^ 31`, `40r + 37 < 2 ^ 31`), every
pixel `(x, y)` that `printHexDigitThroughGraphics (d)` writes has
`20c + 3 <= x <= 20c + 17` and `40r + 3 <= y <= 40r + 37`; hence glyphs drawn at
two different cursor cells never write a common pixel coordinate. -/
theorem glyph_in_cell (H d c r : Nat)
    (hx : 20 * c + 17 < 2 ^ 31) (hy : 40 * r + 37 < 2 ^ 31) :
    (∀ w ∈ pixelWrites (printHexDigitThroughGraphics H d ⟨c, r, []⟩).trace,
      (20 * (c : Int) + 3 ≤ w.1 ∧ w.1 ≤ 20 * (c : Int) + 17) ∧
        (40 * (r : Int) + 3 ≤ w.2.1 ∧ w.2.1 ≤ 40 * (r : Int) + 37)) ∧
      ∀ d2 c2 r2 : Nat, (c2, r2) ≠ (c, r) → 20 * c2 + 17 < 2 ^ 31 → 40 * r2 + 37 < 2 ^ 31 →
        ∀ w ∈ pixelWrites (printHexDigitThroughGraphics H d ⟨c, r, []⟩).trace,
          ∀ w2 ∈ pixelWrites (printHexDigitThroughGraphics H d2 ⟨c2, r2, []⟩).trace,
            (w.1, w.2.1) ≠ (w2.1, w2.2.1) := by
  refine ⟨pixelWrites_in_cell H d c r hx hy, ?_⟩
  intro d2 c2 r2 hne hx2 hy2 w hw w2 hw2 heq
  obtain ⟨⟨a1, a2⟩, ⟨b1, b2⟩⟩ := pixelWrites_in_cell H d c r hx hy w hw
  obtain ⟨⟨a3, a4⟩, ⟨b3, b4⟩⟩ := pixelWrites_in_cell H d2 c2 r2 hx2 hy2 w2 hw2
  obtain ⟨e1, e2⟩ := Prod.mk.inj heq
  apply hne
  have hc : c2 = c := by omega
  have hr : r2 = r := by omega
  rw [hc, hr]

/-- Witness of C16: the glyph `a` at cursor `(1, 2)` stays in its cell. -/
theorem glyph_in_cell_witness :
    (20 * 1 + 17 < 2 ^ 31) ∧ (40 * 2 + 37 < 2 ^ 31) ∧
      ∀ w ∈ pixelWrites (printHexDigitThroughGraphics 1024 10 ⟨1, 2, []⟩).trace,
        (20 * ((1 : Nat) : Int) + 3 ≤ w.1 ∧ w.1 ≤ 20 * ((1 : Nat) : Int) + 17) ∧
          (40 * ((2 : Nat) : Int) + 3 ≤ w.2.1 ∧ w.2.1 ≤ 40 * ((2 : Nat) : Int) + 37) :=
  ⟨by norm_num, by norm_num, (glyph_in_cell 1024 10 1 2 (by norm_num) (by norm_num)).1⟩

theorem samplesOf_getElem? (call : Int × Int × Int × Int × Nat) (i : Nat) (hi : i < 100) :
    (samplesOf call)[i]? =
      some (sample call.1 call.2.1 call.2.2.1 call.2.2.2.1 call.2.2.2.2 i) := by
  simp only [samplesOf, List.getElem?_map, List.getElem?_range hi, Option.map_some']

theorem samplesOf_step (call : Int × Int × Int × Int × Nat)
    (hx : |call.2.2.1 - call.1| ≤ 100) (hy : |call.2.2.2.1 - call.2.1| ≤ 100)
    (i : Nat) (hi : i < 99) (p q : Int × Int × Nat)
    (hp : (samplesOf call)[i]? = some p) (hq : (samplesOf call)[i + 1]? = some q) :
    |q.1 - p.1| ≤ 1 ∧ |q.2.1 - p.2.1| ≤ 1 := by
  rw [samplesOf_getElem? call i (by omega)] at hp
  rw [samplesOf_getElem? call (i + 1) (by omega)] at hq
  obtain rfl := Option.some.inj hp
  obtain rfl := Option.some.inj hq
  have h1 := tdiv_mul_step (call.2.2.1 - call.1) i hx
  have h2 := tdiv_mul_step (call.2.2.2.1 - call.2.1) i hy
  simp only [sample]
  constructor
  · rwa [show call.1 + ((call.2.2.1 - call.1) * ((i + 1 : Nat) : Int)).tdiv 100 -
        (call.1 + ((call.2.2.1 - call.1) * (i : Int)).tdiv 100) =
        ((call.2.2.1 - call.1) * ((i + 1 : Nat) : Int)).tdiv 100 -
          ((call.2.2.1 - call.1) * (i : Int)).tdiv 100 by ring]
  · rwa [show call.2.1 + ((call.2.2.2.1 - call.2.1) * ((i + 1 : Nat) : Int)).tdiv 100 -
        (call.2.1 + ((call.2.2.2.1 - call.2.1) * (i : Int)).tdiv 100) =
        ((call.2.2.2.1 - call.2.1) * ((i + 1 : Nat) : Int)).tdiv 100 -
          ((call.2.2.2.1 - call.2.1) * (i : Int)).tdiv 100 by ring]

theorem pixelWrites_drawLine_eq_samplesOf (x0 y0 x1 y1 : Int) (color c r : Nat) :
    pixelWrites (drawLine x0 y0 x1 y1 color ⟨c, r, []⟩).trace =
      samplesOf (x0, y0, x1, y1, color) :=
  pixelWrites_drawLine x0 y0 x1 y1 color c r

theorem glyph_stroke_span (H d c r : Nat)
    (hx : 20 * c + 17 < 2 ^ 31) (hy : 40 * r + 37 < 2 ^ 31) :
    ∀ call ∈ drawLineCalls (printHexDigitThroughGraphics H d ⟨c, r, []⟩).trace,
      |call.2.2.1 - call.1| ≤ 14 ∧ |call.2.2.2.1 - call.2.1| ≤ 34 := by
  intro call hcall
  rw [drawLineCalls_glyph H d c r hx hy] at hcall
  obtain ⟨s, hs, rfl⟩ := List.mem_map.mp hcall
  obtain ⟨⟨a1, a2⟩, ⟨b1, b2⟩, ⟨a3, a4⟩, ⟨b3, b4⟩⟩ := specStrokes_in_cell d c r s hs
  simp only [Stroke.call, abs_le]
  omega

theorem glyph_calls_exact (H d c r : Nat) (s : State)
    (hx : 20 * c + 17 < 2 ^ 31) (hy : 40 * r + 37 < 2 ^ 31) :
    ∀ call ∈ drawLineCalls (printHexDigitThroughGraphics H d ⟨c, r, []⟩).trace,
      drawLineInt32 call.1 call.2.1 call.2.2.1 call.2.2.2.1 call.2.2.2.2 s =
        drawLine call.1 call.2.1 call.2.2.1 call.2.2.2.1 call.2.2.2.2 s := by
  intro call hcall
  obtain ⟨h1, h2⟩ := glyph_stroke_span H d c r hx hy call hcall
  rw [drawLineCalls_glyph H d c r hx hy] at hcall
  obtain ⟨st, hs, rfl⟩ := List.mem_map.mp hcall
  obtain ⟨⟨a1, a2⟩, ⟨b1, b2⟩, ⟨a3, a4⟩, ⟨b3, b4⟩⟩ := specStrokes_in_cell d c r st hs
  simp only [Stroke.call] at h1 h2 ⊢
  have hc : (20 : Int) * (c : Int) + 17 < 2 ^ 31 := by exact_mod_cast hx
  have hr : (40 : Int) * (r : Int) + 37 < 2 ^ 31 := by exact_mod_cast hy
  have hc0 : (0 : Int) ≤ (c : Int) := Int.ofNat_nonneg c
  have hr0 : (0 : Int) ≤ (r : Int) := Int.ofNat_nonneg r
  exact drawLineInt32_eq_drawLine _ _ _ _ _ s ⟨by omega, by omega⟩ ⟨by omega, by omega⟩
    ⟨by omega, by omega⟩ ⟨by omega, by omega⟩ (by omega) (by omega)

theorem getElem?_flatMap_block {α β : Type} (f : α → List β) (n : Nat) (l : List α)
    (hf : ∀ a ∈ l, (f a).length = n) (k : Nat) (a : α) (hk : l[k]? = some a) (i : Nat)
    (hi : i < n) : (l.flatMap f)[n * k + i]? = (f a)[i]? := by
  induction l generalizing k with
  | nil => simp at hk
  | cons b l ih =>
    have hb : (f b).length = n := hf b (List.mem_cons_self b l)
    rw [List.flatMap_cons]
    cases k with
    | zero =>
      simp only [List.getElem?_cons_zero, Option.some.injEq] at hk
      subst hk
      rw [Nat.mul_zero, Nat.zero_add, List.getElem?_append_left (by omega)]
    | succ k =>
      simp only [List.getElem?_cons_succ] at hk
      rw [List.getElem?_append_right (by rw [hb, Nat.mul_succ]; omega)]
      rw [show n * (k + 1) + i - (f b).length = n * k + i by rw [hb, Nat.mul_succ]; omega]
      exact ih (fun a ha => hf a (List.mem_cons_of_mem b ha)) k hk

theorem length_flatMap_block {α β : Type} (f : α → List β) (n : Nat) (l : List α)
    (hf : ∀ a ∈ l, (f a).length = n) : (l.flatMap f).length = n * l.length := by
  induction l with
  | nil => simp
  | cons b l ih =>
    rw [List.flatMap_cons, List.length_append, hf b (List.mem_cons_self b l),
      ih (fun a ha => hf a (List.mem_cons_of_mem b ha)), List.length_cons, Nat.mul_succ]
    omega

theorem samplesOf_length (call : Int × Int × Int × Int × Nat) : (samplesOf call).length = 100 := by
  simp [samplesOf]

theorem samplesOf_adjacent (call : Int × Int × Int × Int × Nat)
    (hx : |call.2.2.1 - call.1| ≤ 100) (hy : |call.2.2.2.1 - call.2.1| ≤ 100)
    (i : Nat) (hi : i < 99) :
    ∃ p q, (samplesOf call)[i]? = some p ∧ (samplesOf call)[i + 1]? = some q ∧
      |q.1 - p.1| ≤ 1 ∧ |q.2.1 - p.2.1| ≤ 1 :=
  ⟨_, _, samplesOf_getElem? call i (by omega), samplesOf_getElem? call (i + 1) (by omega),
    samplesOf_step call hx hy i hi _ _ (samplesOf_getElem? call i (by omega))
      (samplesOf_getElem? call (i + 1) (by omega))⟩

theorem specStrokes_ne_nil (d : Nat) (p : RefPoints) : 1 ≤ (specStrokes d p).length := by
  unfold specStrokes
  split <;> simp

/-- Claim C17, amended: for every `drawLine` call with `|x1 - x0| <= 100` and
`|y1 - y0| <= 100`, the stores of steps `i` and `i + 1` (`0 <= i < 99`) exist and
differ by at most 1 in `x` and at most 1 in `y`.  For every glyph drawn at a cursor
whose cell coordinates fit an `int` (`20c + 17 < 2 ^ 31`, `40r + 37 < 2 ^ 31`): the
glyph has at least one stroke, its stores are 100 per stroke, the `k`-th block of
100 stores is made by the `k`-th stroke, every stroke has `|dx| <= 14` and
`|dy| <= 34`, and inside every block consecutive stores differ by at most 1 in
each coordinate: every glyph stroke is a connected pixel path. -/
theorem glyph_strokes_connected (x0 y0 x1 y1 : Int) (color H d c r : Nat) :
    (|x1 - x0| ≤ 100 → |y1 - y0| ≤ 100 →
      ∀ i, i < 99 → ∃ p q,
        (pixelWrites (drawLine x0 y0 x1 y1 color ⟨c, r, []⟩).trace)[i]? = some p ∧
        (pixelWrites (drawLine x0 y0 x1 y1 color ⟨c, r, []⟩).trace)[i + 1]? = some q ∧
          |q.1 - p.1| ≤ 1 ∧ |q.2.1 - p.2.1| ≤ 1) ∧
      (20 * c + 17 < 2 ^ 31 → 40 * r + 37 < 2 ^ 31 →
        1 ≤ (drawLineCalls (printHexDigitThroughGraphics H d ⟨c, r, []⟩).trace).length ∧
        (pixelWrites (printHexDigitThroughGraphics H d ⟨c, r, []⟩).trace).length =
          100 * (drawLineCalls (printHexDigitThroughGraphics H d ⟨c, r, []⟩).trace).length ∧
        ∀ (k : Nat) (call : Int × Int × Int × Int × Nat),
          (drawLineCalls (printHexDigitThroughGraphics H d ⟨c, r, []⟩).trace)[k]? = some call →
            (|call.2.2.1 - call.1| ≤ 14 ∧ |call.2.2.2.1 - call.2.1| ≤ 34) ∧
            (∀ i, i < 100 →
              (pixelWrites (printHexDigitThroughGraphics H d ⟨c, r, []⟩).trace)[100 * k + i]? =
                (pixelWrites (drawLine call.1 call.2.1 call.2.2.1 call.2.2.2.1 call.2.2.2.2
                  ⟨c, r, []⟩).trace)[i]?) ∧
            ∀ i, i < 99 → ∃ p q,
              (pixelWrites (printHexDigitThroughGraphics H d ⟨c, r, []⟩).trace)[100 * k + i]? =
                some p ∧
              (pixelWrites (printHexDigitThroughGraphics H d ⟨c, r, []⟩).trace)[100 * k + i + 1]? =
                some q ∧
              |q.1 - p.1| ≤ 1 ∧ |q.2.1 - p.2.1| ≤ 1) := by
  constructor
  · intro hx hy i hi
    rw [pixelWrites_drawLine_eq_samplesOf]
    exact samplesOf_adjacent (x0, y0, x1, y1, color) hx hy i hi
  · intro hx hy
    have hlen : ∀ a ∈ drawLineCalls (printHexDigitThroughGraphics H d ⟨c, r, []⟩).trace,
        (samplesOf a).length = 100 := fun a _ => samplesOf_length a
    refine ⟨?_, ?_, ?_⟩
    · rw [drawLineCalls_glyph H d c r hx hy, List.length_map]
      exact specStrokes_ne_nil d _
    · rw [pixelWrites_printHexDigit]
      exact length_flatMap_block samplesOf 100 _ hlen
    · intro k call hk
      obtain ⟨h1, h2⟩ := glyph_stroke_span H d c r hx hy call (List.mem_iff_getElem?.mpr ⟨k, hk⟩)
      have hblock : ∀ i, i < 100 →
          (pixelWrites (printHexDigitThroughGraphics H d ⟨c, r, []⟩).trace)[100 * k + i]? =
            (samplesOf call)[i]? := by
        intro i hi
        rw [pixelWrites_printHexDigit]
        exact getElem?_flatMap_block samplesOf 100 _ hlen k call hk i hi
      refine ⟨⟨h1, h2⟩, ?_, ?_⟩
      · intro i hi
        rw [hblock i hi, pixelWrites_drawLine_eq_samplesOf]
      · intro i hi
        rw [hblock i (by omega), Nat.add_assoc, hblock (i + 1) (by omega)]
        exact samplesOf_adjacent call (le_trans h1 (by norm_num)) (le_trans h2 (by norm_num)) i hi

/-- Witness of C17: the diagonal of the glyph `7` at cursor `(0, 0)`, from
`(17, 3)` to `(3, 37)`, and the glyph `7` itself. -/
theorem glyph_strokes_connected_witness :
    ((|(3 : Int) - 17| ≤ 100) ∧ (|(37 : Int) - 3| ≤ 100) ∧
      ∀ i, i < 99 → ∃ p q,
        (pixelWrites (drawLine 17 3 3 37 0x00ffffff ⟨0, 0, []⟩).trace)[i]? = some p ∧
        (pixelWrites (drawLine 17 3 3 37 0x00ffffff ⟨0, 0, []⟩).trace)[i + 1]? = some q ∧
          |q.1 - p.1| ≤ 1 ∧ |q.2.1 - p.2.1| ≤ 1) ∧
      (20 * 0 + 17 < 2 ^ 31) ∧ (40 * 0 + 37 < 2 ^ 31) ∧
      (pixelWrites (printHexDigitThroughGraphics 1024 7 ⟨0, 0, []⟩).trace).length =
        100 * (drawLineCalls (printHexDigitThroughGraphics 1024 7 ⟨0, 0, []⟩).trace).length :=
  ⟨⟨by norm_num, by norm_num,
      (glyph_strokes_connected 17 3 3 37 0x00ffffff 1024 7 0 0).1 (by norm_num) (by norm_num)⟩,
    by norm_num, by norm_num,
    ((glyph_strokes_connected 17 3 3 37 0x00ffffff 1024 7 0 0).2 (by norm_num)
      (by norm_num)).2.1⟩

/-- Counterexample to C17 as stated: at the cursor `(0, 53687091)` the `UINT32`
value `(ROW + 1) * 40 - 3 = 2147483677` does not fit an `int`, so the single
stroke of the glyph `1` is the call `drawLine (10, 2147483643, 10, -2147483619)`,
whose `|dy|` is not at most 34. -/
theorem glyph_strokes_connected_counterexample :
    drawLineCalls (printHexDigitThroughGraphics 1024 1 ⟨0, 53687091, []⟩).trace =
        [(10, 2147483643, 10, -2147483619, 0x00ffffff)] ∧
      ∃ call ∈ drawLineCalls (printHexDigitThroughGraphics 1024 1 ⟨0, 53687091, []⟩).trace,
        ¬ (|call.2.2.1 - call.1| ≤ 14 ∧ |call.2.2.2.1 - call.2.1| ≤ 34) := by
  have hxc : toInt32 (cell_xc 0) = 10 := by
    norm_num [cell_xc, cell_xs, cell_xe, toUINTN, toUINT32, subUINT32, toInt32, DIGIT_WIDTH,
      DIGIT_MARGIN]
  have hys : toInt32 (cell_ys 53687091) = 2147483643 := by
    norm_num [cell_ys, toUINTN, toUINT32, toInt32, DIGIT_HEIGHT, DIGIT_MARGIN]
  have hye : toInt32 (cell_ye 53687091) = -2147483619 := by
    norm_num [cell_ye, toUINTN, toUINT32, subUINT32, toInt32, DIGIT_HEIGHT, DIGIT_MARGIN]
  have h : drawLineCalls (printHexDigitThroughGraphics 1024 1 ⟨0, 53687091, []⟩).trace =
      [(10, 2147483643, 10, -2147483619, 0x00ffffff)] := by
    rw [drawLineCalls_printHexDigit]
    simp [glyphEvents, drawDigit, line_eq, drawLineCalls_append, drawLineCalls_lineEvents,
      hxc, hys, hye]
  refine ⟨h, (10, 2147483643, 10, -2147483619, 0x00ffffff), ?_, ?_⟩
  · rw [h]
    exact List.mem_singleton.mpr rfl
  · norm_num [abs_le]

/-! ## The colours of `printU32ThroughGraphics` -/

theorem mem_pixelWrites (t : List Event) (w : Int × Int × Nat) :
    w ∈ pixelWrites t ↔ Event.write w.1 w.2.1 w.2.2 ∈ t := by
  simp only [pixelWrites, List.mem_filterMap]
  constructor
  · rintro ⟨e, he, h⟩
    cases e <;> simp at h
    subst h
    exact he
  · intro h
    exact ⟨_, h, rfl⟩

theorem mem_drawLineCalls (t : List Event) (call : Int × Int × Int × Int × Nat) :
    call ∈ drawLineCalls t ↔
      Event.callDrawLine call.1 call.2.1 call.2.2.1 call.2.2.2.1 call.2.2.2.2 ∈ t := by
  simp only [drawLineCalls, List.mem_filterMap]
  constructor
  · rintro ⟨e, he, h⟩
    cases e <;> simp at h
    subst h
    exact he
  · intro h
    exact ⟨_, h, rfl⟩

theorem hasColor_lineEvents (x0 y0 x1 y1 : Int) (color : Nat) :
    ∀ e ∈ lineEvents x0 y0 x1 y1 color, e.hasColor color := by
  intro e he
  simp only [lineEvents, List.mem_cons, List.mem_map] at he
  rcases he with rfl | ⟨i, -, rfl⟩ <;> rfl

theorem hasColor_glyphEvents (d xs ys xe ye xc yc color : Nat) (hd : d ≤ 15) :
    ∀ e ∈ glyphEvents d xs ys xe ye xc yc color, e.hasColor color := by
  interval_cases d <;>
    simp only [glyphEvents, drawDigit, line_eq, List.nil_append, List.forall_mem_append] <;>
    (repeat' apply And.intro) <;>
    exact hasColor_lineEvents _ _ _ _ _

theorem hasColor_printHexDigit (H d : Nat) (s : State) (hd : d ≤ 15)
    (hs : ∀ e ∈ s.trace, e.hasColor 0x00ffffff) :
    ∀ e ∈ (printHexDigitThroughGraphics H d s).trace, e.hasColor 0x00ffffff := by
  intro e he
  rw [printHexDigit_eq] at he
  simp only [List.mem_append, digitEvents, List.mem_cons] at he
  rcases he with he | rfl | he
  · exact hs e he
  · trivial
  · exact hasColor_glyphEvents d _ _ _ _ _ _ _ hd e he

theorem hasColor_foldl (H u : Nat) (l : List Nat) (s : State)
    (hs : ∀ e ∈ s.trace, e.hasColor 0x00ffffff) :
    ∀ e ∈ (l.foldl (fun s digit =>
        printHexDigitThroughGraphics H (toUINT8 ((u >>> (4 * digit)) &&& 0x0f)) s) s).trace,
      e.hasColor 0x00ffffff := by
  induction l generalizing s with
  | nil => exact hs
  | cons a l ih =>
    rw [List.foldl_cons]
    apply ih
    apply hasColor_printHexDigit H _ s _ hs
    rw [toUINT8_nibble]
    have := Nat.and_pow_two_sub_one_eq_mod (u >>> (4 * a)) 4
    simp at this
    omega

theorem hasColor_printU32 (H u : Nat) (s : State)
    (hs : ∀ e ∈ s.trace, e.hasColor 0x00ffffff) :
    ∀ e ∈ (printU32ThroughGraphics H u s).trace, e.hasColor 0x00ffffff := by
  intro e he
  simp only [printU32ThroughGraphics, printLn_eq, List.mem_append, List.mem_singleton] at he
  rcases he with he | rfl
  · exact hasColor_foldl H u _ s hs e he
  · trivial

/-- Claim C19: for every value `u` and every cursor, every argument that
`printU32ThroughGraphics (u)` passes to `printHexDigitThroughGraphics` is at most
15, so the fallback branch is not taken: every `drawLine` call and every pixel
store of `printU32ThroughGraphics` has the colour `0x00ffffff`, never the fallback
colour `0x00ff00ff`. -/
theorem printU32_no_fallback (H u c r : Nat) :
    (∀ n ∈ hexDigitArgs (printU32ThroughGraphics H u ⟨c, r, []⟩).trace, n ≤ 15) ∧
      (∀ call ∈ drawLineCalls (printU32ThroughGraphics H u ⟨c, r, []⟩).trace,
        call.2.2.2.2 = 0x00ffffff ∧ call.2.2.2.2 ≠ 0x00ff00ff) ∧
      ∀ w ∈ pixelWrites (printU32ThroughGraphics H u ⟨c, r, []⟩).trace,
        w.2.2 = 0x00ffffff ∧ w.2.2 ≠ 0x00ff00ff := by
  have hcol := hasColor_printU32 H u ⟨c, r, []⟩ (fun e he => absurd he (List.not_mem_nil e))
  refine ⟨?_, ?_, ?_⟩
  · intro n hn
    rw [hexDigitArgs_printU32] at hn
    simp only [hexDigitArgs, List.filterMap_nil, List.nil_append] at hn
    obtain ⟨k, -, rfl⟩ := List.mem_map.mp hn
    rw [nibble_eq]
    omega
  · intro call hcall
    have h : call.2.2.2.2 = 0x00ffffff := hcol _ ((mem_drawLineCalls _ call).mp hcall)
    exact ⟨h, by rw [h]; norm_num⟩
  · intro w hw
    have h : w.2.2 = 0x00ffffff := hcol _ ((mem_pixelWrites _ w).mp hw)
    exact ⟨h, by rw [h]; norm_num⟩

/-! ## The stroke programs that use quarter points -/

theorem quarterPoint_digit (H d c r : Nat) (hd : d ≤ 15)
    (hx : 20 * c + 17 < 2 ^ 31) (hy : 40 * r + 37 < 2 ^ 31) :
    ((drawLineCalls (printHexDigitThroughGraphics H d ⟨c, r, []⟩).trace).any
        (usesQuarterPoint (refPoints c r)) = true ↔ d = 10 ∨ d = 11) ∧
      (d ≠ 10 → d ≠ 11 →
        (drawLineCalls (printHexDigitThroughGraphics H d ⟨c, r, []⟩).trace).all
          (onlyRefPoints (refPoints c r)) = true) := by
  have q1 : (20 * (c : Int) + 3 + (20 * (c : Int) + 10)) / 2 = 20 * (c : Int) + 6 := by omega
  have q2 : (20 * (c : Int) + 17 + (20 * (c : Int) + 10)) / 2 = 20 * (c : Int) + 13 := by omega
  have q3 : (40 * (r : Int) + 3 + (40 * (r : Int) + 20)) / 2 = 40 * (r : Int) + 11 := by omega
  have q4 : (40 * (r : Int) + 37 + (40 * (r : Int) + 20)) / 2 = 40 * (r : Int) + 28 := by omega
  rw [drawLineCalls_glyph H d c r hx hy, refPoints_eq]
  interval_cases d <;>
    simp [specStrokes, Stroke.call, Stroke.rev, RefPoints.top, RefPoints.bottom,
      RefPoints.left, RefPoints.right, RefPoints.middle, RefPoints.centre,
      RefPoints.leftUpper, RefPoints.rightLower, RefPoints.diagTRBL, usesQuarterPoint,
      onlyRefPoints, q1, q2, q3, q4]

theorem quarterPointDigits_eq (H c r : Nat)
    (hx : 20 * c + 17 < 2 ^ 31) (hy : 40 * r + 37 < 2 ^ 31) :
    quarterPointDigits H c r = [10, 11] := by
  have h : (List.range 16).filter (fun d =>
      (drawLineCalls (printHexDigitThroughGraphics H d ⟨c, r, []⟩).trace).any
        (usesQuarterPoint (refPoints c r))) =
      (List.range 16).filter (fun d => decide (d = 10 ∨ d = 11)) := by
    apply List.filter_congr
    intro d hd
    have hd15 : d ≤ 15 := by
      have := List.mem_range.mp hd
      omega
    have hiff := (quarterPoint_digit H d c r hd15 hx hy).1
    by_cases hq : d = 10 ∨ d = 11
    · rw [hiff.mpr hq, decide_eq_true hq]
    · rw [decide_eq_false hq]
      exact Bool.eq_false_iff.mpr (fun ht => hq (hiff.mp ht))
  rw [quarterPointDigits, h]
  decide

/-- Claim C20, amended: exactly two of the sixteen digit stroke programs (nibbles
`0..15`), those of `a` and `b`, use quarter-points, that is an end point coordinate
`(xs+xc)/2`, `(xe+xc)/2`, `(ys+yc)/2` or `(ye+yc)/2`; every other program, the one
of `d` included, references only `xs`, `xe`, `xc`, `ys`, `ye`, `yc` (at every
cursor whose cell coordinates fit an `int`). -/
theorem quarterPoint_programs (H c r : Nat)
    (hx : 20 * c + 17 < 2 ^ 31) (hy : 40 * r + 37 < 2 ^ 31) :
    quarterPointDigits H c r = [10, 11] ∧
      (quarterPointDigits H c r).length = 2 ∧
      ∀ d, d ≤ 15 → d ≠ 10 → d ≠ 11 →
        (drawLineCalls (printHexDigitThroughGraphics H d ⟨c, r, []⟩).trace).all
          (onlyRefPoints (refPoints c r)) = true := by
  have h := quarterPointDigits_eq H c r hx hy
  refine ⟨h, by rw [h]; rfl, ?_⟩
  intro d hd h10 h11
  exact (quarterPoint_digit H d c r hd hx hy).2 h10 h11

/-- Witness of C20 at the cursor `(0, 0)`. -/
theorem quarterPoint_programs_witness :
    (20 * 0 + 17 < 2 ^ 31) ∧ (40 * 0 + 37 < 2 ^ 31) ∧
      quarterPointDigits 1024 0 0 = [10, 11] :=
  ⟨by norm_num, by norm_num, (quarterPoint_programs 1024 0 0 (by norm_num) (by norm_num)).1⟩

/-- Counterexample to C20 as stated: at the cursor `(0, 0)` the programs that use a
quarter-point are not three, and the program of `d` is not one of them: its calls
use the reference points only. -/
theorem quarterPoint_programs_counterexample :
    (quarterPointDigits 1024 0 0).length ≠ 3 ∧
      13 ∉ quarterPointDigits 1024 0 0 ∧
      drawLineCalls (printHexDigitThroughGraphics 1024 13 ⟨0, 0, []⟩).trace =
        [(3, 3, 3, 37, 0x00ffffff), (3, 3, 17, 20, 0x00ffffff),
          (17, 20, 3, 37, 0x00ffffff)] := by
  have h := quarterPointDigits_eq 1024 0 0 (by norm_num) (by norm_num)
  refine ⟨by rw [h]; decide, by rw [h]; decide, ?_⟩
  rw [drawLineCalls_glyph 1024 13 0 0 (by norm_num) (by norm_num), refPoints_eq]
  simp [specStrokes, Stroke.call, RefPoints.left]

/-! ## Frame buffer bounds of a session -/

theorem mem_pixelWrites_flatMap_digitEvents (u k : Nat) (w : Int × Int × Nat)
    (hw : w ∈ pixelWrites ((List.range 8).flatMap fun j => digitEvents (nibble u j) (0 + j) k)) :
    ∃ j, j < 8 ∧ w ∈ pixelWrites (digitEvents (nibble u j) j k) := by
  rw [mem_pixelWrites] at hw
  obtain ⟨j, hj, hmem⟩ := List.mem_flatMap.mp hw
  refine ⟨j, List.mem_range.mp hj, ?_⟩
  rw [mem_pixelWrites]
  simpa using hmem

theorem printU32_row (H u k : Nat) (t : List Event) (hH : 160 ≤ H)
    (hk : 40 * k + 37 < 2 ^ 31) :
    (printU32ThroughGraphics H u ⟨0, k, t⟩).COL = 0 ∧
      (printU32ThroughGraphics H u ⟨0, k, t⟩).ROW = k + 1 ∧
      ∀ w ∈ pixelWrites (printU32ThroughGraphics H u ⟨0, k, t⟩).trace,
        w ∈ pixelWrites t ∨
          (0 ≤ w.1 ∧ w.1 ≤ 157 ∧ 40 * (k : Int) + 3 ≤ w.2.1 ∧ w.2.1 ≤ 40 * (k : Int) + 37) := by
  have h := printU32_noWrap H u 0 k t (by omega) (by norm_num)
  have hr : toUINT32 (k + 1) = k + 1 := toUINT32_of_lt _ (by omega)
  rw [h]
  refine ⟨rfl, hr, ?_⟩
  intro w hw
  simp only [pixelWrites_append] at hw
  rcases List.mem_append.mp hw with hw | hw
  · rcases List.mem_append.mp hw with hw | hw
    · exact Or.inl hw
    · obtain ⟨j, hj, hmem⟩ := mem_pixelWrites_flatMap_digitEvents u k w hw
      rw [← trace_printHexDigit H] at hmem
      obtain ⟨⟨a1, a2⟩, b⟩ := pixelWrites_in_cell H (nibble u j) j k (by omega) hk w hmem
      exact Or.inr ⟨by omega, by omega, b⟩
  · simp [pixelWrites] at hw

theorem session_bounds (H : Nat) (us : List Nat) (k : Nat) (t : List Event) (hH : 160 ≤ H)
    (hk : 40 * (k + us.length) ≤ 2 ^ 31)
    (ht : ∀ w ∈ pixelWrites t, 0 ≤ w.1 ∧ w.1 ≤ 157 ∧ 0 ≤ w.2.1 ∧ w.2.1 < 40 * (k : Int)) :
    (session H us ⟨0, k, t⟩).COL = 0 ∧ (session H us ⟨0, k, t⟩).ROW = k + us.length ∧
      ∀ w ∈ pixelWrites (session H us ⟨0, k, t⟩).trace,
        0 ≤ w.1 ∧ w.1 ≤ 157 ∧ 0 ≤ w.2.1 ∧ w.2.1 < 40 * ((k + us.length : Nat) : Int) := by
  induction us generalizing k t with
  | nil => exact ⟨rfl, rfl, ht⟩
  | cons u us ih =>
    simp only [List.length_cons] at hk
    obtain ⟨hc, hr, hw⟩ := printU32_row H u k t hH (by omega)
    have hs : printU32ThroughGraphics H u ⟨0, k, t⟩ =
        ⟨0, k + 1, (printU32ThroughGraphics H u ⟨0, k, t⟩).trace⟩ := by
      generalize printU32ThroughGraphics H u ⟨0, k, t⟩ = s1 at hc hr
      cases s1
      simp only at hc hr
      rw [hc, hr]
    have hstep : session H (u :: us) ⟨0, k, t⟩ =
        session H us ⟨0, k + 1, (printU32ThroughGraphics H u ⟨0, k, t⟩).trace⟩ := by
      rw [← hs]
      rfl
    rw [hstep, List.length_cons]
    have e : k + (us.length + 1) = k + 1 + us.length := by omega
    rw [e]
    apply ih (k + 1) _ (by omega)
    intro w hwm
    rcases hw w hwm with h | h
    · obtain ⟨h1, h2, h3, h4⟩ := ht w h
      exact ⟨h1, h2, h3, by push_cast; omega⟩
    · exact ⟨h.1, h.2.1, by omega, by push_cast; omega⟩

theorem session_append_one (H u : Nat) (us : List Nat) (s : State) :
    session H (us ++ [u]) s = printU32ThroughGraphics H u (session H us s) := by
  simp only [session, List.foldl_append, List.foldl_cons, List.foldl_nil]

/-- Claim C11, amended: for every resolution `(H, V)` with `H >= 160` (eight cells
fit in a row) and `V <= 2 ^ 31`, and every session of `n` calls of
`printU32ThroughGraphics` from the initial cursor `(0, 0)` with `40 n <= V` (the
`n` rows fit the screen), every pixel `(x, y)` that is written has `0 <= x < H`
and `0 <= y < V`. -/
theorem session_in_bounds (H V : Nat) (us : List Nat)
    (hH : 160 ≤ H) (hV : V ≤ 2 ^ 31) (hn : 40 * us.length ≤ V) :
    ∀ w ∈ pixelWrites (session H us initialState).trace,
      0 ≤ w.1 ∧ w.1 < (H : Int) ∧ 0 ≤ w.2.1 ∧ w.2.1 < (V : Int) := by
  intro w hw
  obtain ⟨-, -, h⟩ := session_bounds H us 0 [] hH (by omega)
    (fun w hw => absurd hw (List.not_mem_nil w))
  obtain ⟨h1, h2, h3, h4⟩ := h w hw
  refine ⟨h1, by omega, h3, ?_⟩
  push_cast at h4
  omega

/-- Witness of C11: one value printed on a 1024 x 768 screen. -/
theorem session_in_bounds_witness :
    (160 ≤ 1024) ∧ (768 ≤ 2 ^ 31) ∧ (40 * [0xDEADBEEF].length ≤ 768) ∧
      ∀ w ∈ pixelWrites (session 1024 [0xDEADBEEF] initialState).trace,
        0 ≤ w.1 ∧ w.1 < ((1024 : Nat) : Int) ∧ 0 ≤ w.2.1 ∧ w.2.1 < ((768 : Nat) : Int) :=
  ⟨by norm_num, by norm_num, by norm_num,
    session_in_bounds 1024 768 [0xDEADBEEF] (by norm_num) (by norm_num) (by norm_num)⟩

/-- Counterexample to C11 as stated: on a 1024 x 768 screen the twentieth call of a
session draws in row 19, and the bottom stroke of its first glyph `0` stores to the
pixel `(3, 797)`, below the last line of the screen. -/
theorem session_in_bounds_counterexample :
    (3, 797, 0x00ffffff) ∈
        pixelWrites (session 1024 (List.replicate 20 0) initialState).trace ∧
      ¬ ((797 : Int) < ((768 : Nat) : Int)) := by
  refine ⟨?_, by norm_num⟩
  have e : List.replicate 20 0 = List.replicate 19 0 ++ [0] := by decide
  obtain ⟨hc, hr, -⟩ := session_bounds 1024 (List.replicate 19 0) 0 [] (by norm_num)
    (by simp) (fun w hw => absurd hw (List.not_mem_nil w))
  have hs : session 1024 (List.replicate 19 0) initialState =
      ⟨0, 19, (session 1024 (List.replicate 19 0) initialState).trace⟩ := by
    simp only [List.length_replicate, Nat.zero_add] at hr
    change (session 1024 (List.replicate 19 0) initialState).COL = 0 at hc
    change (session 1024 (List.replicate 19 0) initialState).ROW = 19 at hr
    generalize session 1024 (List.replicate 19 0) initialState = s1 at hc hr
    cases s1
    simp only at hc hr
    rw [hc, hr]
  rw [e, session_append_one, hs, printU32_noWrap 1024 0 0 19 _ (by norm_num) (by norm_num),
    mem_pixelWrites]
  apply List.mem_append_left
  apply List.mem_append_right
  apply List.mem_flatMap.mpr
  refine ⟨0, by simp, ?_⟩
  have hn : nibble 0 0 = 0 := by simp [nibble]
  rw [hn, ← mem_pixelWrites, Nat.add_zero, ← trace_printHexDigit 1024, pixelWrites_printHexDigit,
    drawLineCalls_glyph 1024 0 0 19 (by norm_num) (by norm_num), refPoints_eq]
  apply List.mem_flatMap.mpr
  refine ⟨(3, 797, 17, 797, 0x00ffffff), by simp [specStrokes, Stroke.call, RefPoints.bottom],
    ?_⟩
  apply List.mem_map.mpr
  exact ⟨0, by simp, by simp [sample]⟩

/-! ## `initGraphics` and `UefiMain` -/

theorem queryLoop_noMatch (H V F err : Nat) (modes : List ModeInformation) (n : Nat)
    (h : ∀ m ∈ modes, ¬ (m.HorizontalResolution = H ∧ m.VerticalResolution = V ∧
      m.PixelFormat = F)) :
    queryLoop H V F err modes n = (err, n + modes.length) := by
  induction modes generalizing n with
  | nil => rfl
  | cons m rest ih =>
    have hm := h m (List.mem_cons_self m rest)
    rw [queryLoop, if_neg hm, ih (n + 1) (fun m2 h2 => h m2 (List.mem_cons_of_mem m h2)),
      List.length_cons]
    congr 1
    omega

/-- Claim C12, the code at the failing input: the adapter has the single mode
800 x 600, so no mode matches 1024 x 768, `SetMode` succeeds and the unassigned
`status` of the macro reads as 0: `initGraphics` calls `SetMode (1)` and returns
`EFI_SUCCESS`, where the claim has a non-success status and no `SetMode` call. -/
theorem initGraphics_noMatch :
    (∀ m ∈ (fwAllSucceed [103]).modes,
        ¬ (m.HorizontalResolution = 1024 ∧ m.VerticalResolution = 768 ∧ m.PixelFormat = 1)) ∧
      initGraphics (fwAllSucceed [103]) 1024 768 1 =
        (EFI_SUCCESS, [BootEvent.callSetMode 1]) := by
  decide

theorem initGraphics_events (fw : Firmware) (H V F : Nat) :
    (initGraphics fw H V F).2 = [] ∨ ∃ n, (initGraphics fw H V F).2 = [BootEvent.callSetMode n] := by
  simp only [initGraphics]
  split_ifs <;> simp

theorem graphicsGuarded_initGraphics (fw : Firmware) (H V F q : Nat) (rest : List BootEvent) :
    graphicsGuarded q ((initGraphics fw H V F).2 ++ rest) = graphicsGuarded q rest := by
  rcases initGraphics_events fw H V F with h | ⟨n, h⟩ <;> rw [h] <;> simp [graphicsGuarded]

theorem initGraphics_fails_of_noMatch (fw : Firmware) (H V F : Nat)
    (h : ∀ m ∈ fw.modes, ¬ (m.HorizontalResolution = H ∧ m.VerticalResolution = V ∧
      m.PixelFormat = F))
    (hset : fw.setMode fw.modes.length ≠ EFI_SUCCESS) :
    (initGraphics fw H V F).1 ≠ EFI_SUCCESS := by
  simp only [initGraphics, queryLoop_noMatch H V F _ _ 0 h, Nat.zero_add]
  split_ifs <;> simp_all

theorem graphicsGuarded_renderCalls (fw : Firmware) (mode : Int) (q : Nat)
    (h : q = 2 ∨ (mode ≠ 103 ∧ mode ≠ 42)) :
    graphicsGuarded q (renderCalls fw mode) = true := by
  simp only [renderCalls, printRegistersUsing, registers, List.map_cons, List.map_nil]
  rcases h with rfl | ⟨h1, h2⟩
  · split_ifs <;> simp [graphicsGuarded]
  · rw [if_neg h1, if_neg h2]
    split_ifs <;> simp [graphicsGuarded]

theorem graphicsGuarded_handoff_nil (fw : Firmware) (mode : Int)
    (h : mode ≠ 103 ∧ mode ≠ 42) :
    graphicsGuarded 0 (handoffAndRender fw mode []).2 = true := by
  simp only [handoffAndRender, List.nil_append]
  split_ifs
  · simp [graphicsGuarded]
  · simp only [List.cons_append, List.nil_append, graphicsGuarded]
    split_ifs <;> exact graphicsGuarded_renderCalls fw mode _ (Or.inr h)

theorem graphicsGuarded_handoff_init (fw : Firmware) (H V F : Nat) (mode : Int) :
    graphicsGuarded 0 (handoffAndRender fw mode
      (BootEvent.callInitGraphics :: (initGraphics fw H V F).2 ++
        [BootEvent.retInitGraphics EFI_SUCCESS])).2 = true := by
  have e1 : ∀ rest, graphicsGuarded 0 (BootEvent.callInitGraphics ::
      ((initGraphics fw H V F).2 ++ BootEvent.retInitGraphics EFI_SUCCESS :: rest)) =
      graphicsGuarded 1 rest := by
    intro rest
    rw [show graphicsGuarded 0 (BootEvent.callInitGraphics ::
        ((initGraphics fw H V F).2 ++ BootEvent.retInitGraphics EFI_SUCCESS :: rest)) =
        graphicsGuarded 0 ((initGraphics fw H V F).2 ++
          BootEvent.retInitGraphics EFI_SUCCESS :: rest) from rfl,
      graphicsGuarded_initGraphics]
    rfl
  simp only [handoffAndRender]
  split_ifs with hs
  · simp only [List.cons_append, List.append_assoc, List.singleton_append, e1]
    rfl
  · have hs0 : exitBootServices fw = EFI_SUCCESS := not_not.mp hs
    simp only [List.cons_append, List.append_assoc, List.singleton_append, e1, hs0]
    exact graphicsGuarded_renderCalls fw mode 2 (Or.inl rfl)

theorem graphicsGuarded_UefiMain (fw : Firmware) (H V F : Nat) :
    graphicsGuarded 0 (UefiMain fw H V F).2 = true := by
  simp only [UefiMain]
  split_ifs with h1 h2 h3 h4 h5 h6
  · rfl
  · rfl
  · rfl
  · rfl
  · rw [show graphicsGuarded 0 (BootEvent.callInitGraphics :: (initGraphics fw H V F).2 ++
        [BootEvent.retInitGraphics (initGraphics fw H V F).1]) =
        graphicsGuarded 0 ((initGraphics fw H V F).2 ++
          [BootEvent.retInitGraphics (initGraphics fw H V F).1]) from rfl,
      graphicsGuarded_initGraphics]
    rfl
  · have h0 : (initGraphics fw H V F).1 = EFI_SUCCESS := not_not.mp h6
    rw [h0]
    exact graphicsGuarded_handoff_init fw H V F _
  · exact graphicsGuarded_handoff_nil fw _ (not_or.mp h5)

theorem UefiMain_init_fails (fw : Firmware) (H V F : Nat) (prog : List Nat) (ch : Nat)
    (rest : List (List Nat)) (hargv : fw.argv = prog :: [ch] :: rest)
    (hch : ch = 103 ∨ ch = 42) (hargs : getArgs fw = EFI_SUCCESS)
    (hinit : (initGraphics fw H V F).1 ≠ EFI_SUCCESS) :
    UefiMain fw H V F =
      (Outcome.returned (initGraphics fw H V F).1,
        BootEvent.callInitGraphics :: (initGraphics fw H V F).2 ++
          [BootEvent.retInitGraphics (initGraphics fw H V F).1]) := by
  have hlen : ¬ fw.argv.length = 1 := by
    rw [hargv]
    simp
  have harg : fw.argv.getD 1 [] = [ch] := by
    rw [hargv]
    rfl
  have hc0 : ¬ (charAt [ch] 0 = 0 ∨ charAt [ch] 1 ≠ 0) := by
    rcases hch with rfl | rfl <;> decide
  have hmode : toChar (charAt [ch] 0) = 103 ∨ toChar (charAt [ch] 0) = 42 := by
    rcases hch with rfl | rfl
    · exact Or.inl (by decide)
    · exact Or.inr (by decide)
  have hvalid : ¬ (toChar (charAt [ch] 0) ≠ 103 ∧ toChar (charAt [ch] 0) ≠ 112 ∧
      toChar (charAt [ch] 0) ≠ 117 ∧ toChar (charAt [ch] 0) ≠ 42) := by
    rcases hmode with h | h <;> rw [h] <;> decide
  simp only [UefiMain, harg]
  rw [if_neg (not_not.mpr hargs), if_neg hlen, if_neg hc0, if_neg hvalid, if_pos hmode,
    if_pos hinit]

/-- The part of the setup-failure property that the code does satisfy: in every
run of `UefiMain` the log passes the monitor `graphicsGuarded` (a
`printU32ThroughGraphics` call happens only after `initGraphics` returned success
and, after that, `exitBootServices` returned success); in mode `g` or `*`, when
`initGraphics` returns a non-success status, `UefiMain` returns it and performs
neither the handoff nor a render call on either channel; and `initGraphics` does
return a non-success status when no mode matches, provided `SetMode` rejects the
mode number that is not offered. -/
theorem UefiMain_setup_failures (fw : Firmware) (H V F : Nat) :
    graphicsGuarded 0 (UefiMain fw H V F).2 = true ∧
      (∀ (prog : List Nat) (ch : Nat) (rest : List (List Nat)),
        fw.argv = prog :: [ch] :: rest → (ch = 103 ∨ ch = 42) → getArgs fw = EFI_SUCCESS →
        (initGraphics fw H V F).1 ≠ EFI_SUCCESS →
          (UefiMain fw H V F).1 = Outcome.returned (initGraphics fw H V F).1 ∧
            BootEvent.callExitBootServices ∉ (UefiMain fw H V F).2 ∧
            ∀ u, BootEvent.renderPort80 u ∉ (UefiMain fw H V F).2 ∧
              BootEvent.renderGraphics u ∉ (UefiMain fw H V F).2) ∧
      ((∀ m ∈ fw.modes, ¬ (m.HorizontalResolution = H ∧ m.VerticalResolution = V ∧
          m.PixelFormat = F)) →
        fw.setMode fw.modes.length ≠ EFI_SUCCESS →
          (initGraphics fw H V F).1 ≠ EFI_SUCCESS) := by
  refine ⟨graphicsGuarded_UefiMain fw H V F, ?_, initGraphics_fails_of_noMatch fw H V F⟩
  intro prog ch rest hargv hch hargs hinit
  rw [UefiMain_init_fails fw H V F prog ch rest hargv hch hargs hinit]
  refine ⟨rfl, ?_, ?_⟩
  · rcases initGraphics_events fw H V F with h | ⟨n, h⟩ <;> rw [h] <;> simp
  · intro u
    rcases initGraphics_events fw H V F with h | ⟨n, h⟩ <;> rw [h] <;> simp

/-- Claim C13, the code at the failing input (the defect of C12): mode `g`, the
adapter has the single mode 800 x 600, so no mode matches 1024 x 768, `SetMode`
succeeds and the unassigned `status` of the macro reads as 0.  `initGraphics`
returns `EFI_SUCCESS`, and `UefiMain` performs the handoff and the render call,
where the claim has a non-success status, no handoff and no render call. -/
theorem UefiMain_noMatch_renders :
    (∀ m ∈ (fwAllSucceed [103]).modes,
        ¬ (m.HorizontalResolution = 1024 ∧ m.VerticalResolution = 768 ∧ m.PixelFormat = 1)) ∧
      UefiMain (fwAllSucceed [103]) 1024 768 1 =
        (Outcome.idle,
          [BootEvent.callInitGraphics, BootEvent.callSetMode 1,
            BootEvent.retInitGraphics EFI_SUCCESS, BootEvent.callExitBootServices,
            BootEvent.retExitBootServices EFI_SUCCESS,
            BootEvent.renderGraphics 0xDEADBEEF]) := by
  decide

/-- Claim C14, amended: when the single positional argument is the string `u` (and
`getArgs` succeeds), `UefiMain` accepts it: it does not activate the display and
performs the handoff `exitBootServices`; when the handoff fails it returns the
status of the handoff, so it returns `EFI_INVALID_PARAMETER` only if that is the
status of the handoff; when the handoff succeeds it makes no render call on
either channel and reaches the idle loop. -/
theorem UefiMain_mode_u (fw : Firmware) (H V F : Nat) (prog : List Nat)
    (hargv : fw.argv = [prog, [117]]) (hargs : getArgs fw = EFI_SUCCESS) :
    UefiMain fw H V F =
        (if exitBootServices fw ≠ EFI_SUCCESS then Outcome.returned (exitBootServices fw)
          else Outcome.idle,
          [BootEvent.callExitBootServices,
            BootEvent.retExitBootServices (exitBootServices fw)]) ∧
      (exitBootServices fw = EFI_SUCCESS → (UefiMain fw H V F).1 = Outcome.idle) ∧
      ((UefiMain fw H V F).1 = Outcome.returned EFI_INVALID_PARAMETER →
        exitBootServices fw = EFI_INVALID_PARAMETER) := by
  have hlen : ¬ fw.argv.length = 1 := by
    rw [hargv]
    simp
  have harg : fw.argv.getD 1 [] = [117] := by
    rw [hargv]
    rfl
  have hmode : toChar (charAt [117] 0) = 117 := by decide
  have key : UefiMain fw H V F =
      (if exitBootServices fw ≠ EFI_SUCCESS then Outcome.returned (exitBootServices fw)
        else Outcome.idle,
        [BootEvent.callExitBootServices,
          BootEvent.retExitBootServices (exitBootServices fw)]) := by
    simp only [UefiMain, harg, hmode]
    rw [if_neg (not_not.mpr hargs), if_neg hlen, if_neg (by decide), if_neg (by decide),
      if_neg (by decide)]
    simp only [handoffAndRender, renderCalls, List.nil_append]
    split_ifs <;> first | rfl | (exfalso; omega)
  refine ⟨key, ?_, ?_⟩
  · intro h
    rw [key, if_neg (not_not.mpr h)]
  · intro h
    rw [key] at h
    by_cases hs : exitBootServices fw ≠ EFI_SUCCESS
    · rw [if_pos hs] at h
      exact Outcome.returned.inj h
    · rw [if_neg hs] at h
      exact Outcome.noConfusion h

/-- Witness of C14: the argument `u` with every firmware service succeeding. -/
theorem UefiMain_mode_u_witness :
    (fwAllSucceed [117]).argv = [[115], [117]] ∧
      getArgs (fwAllSucceed [117]) = EFI_SUCCESS ∧
      UefiMain (fwAllSucceed [117]) 1024 768 1 =
        (if exitBootServices (fwAllSucceed [117]) ≠ EFI_SUCCESS then
            Outcome.returned (exitBootServices (fwAllSucceed [117]))
          else Outcome.idle,
          [BootEvent.callExitBootServices,
            BootEvent.retExitBootServices (exitBootServices (fwAllSucceed [117]))]) :=
  ⟨rfl, rfl, (UefiMain_mode_u (fwAllSucceed [117]) 1024 768 1 [115] rfl rfl).1⟩

/-- Counterexample to C14 as stated: with the argument `u` and every firmware
service succeeding, `UefiMain` performs the handoff and reaches the idle loop; it
does not return `EFI_INVALID_PARAMETER`. -/
theorem UefiMain_mode_u_counterexample :
    UefiMain (fwAllSucceed [117]) 1024 768 1 =
        (Outcome.idle,
          [BootEvent.callExitBootServices, BootEvent.retExitBootServices EFI_SUCCESS]) ∧
      (UefiMain (fwAllSucceed [117]) 1024 768 1).1 ≠
        Outcome.returned EFI_INVALID_PARAMETER := by
  decide

/-- Claim C15, the code at the failing input: the one-character argument U+0170 is
none of `g`, `p`, `u`, `*`, but `char mode = argv[1][0];` keeps its low byte
`0x70` = `p`, so `UefiMain` performs the handoff and renders through port 80;
likewise U+0167 is taken for `g` and the display is activated. -/
theorem UefiMain_wide_char :
    ((0x0170 : Nat) ≠ 103 ∧ (0x0170 : Nat) ≠ 112 ∧ (0x0170 : Nat) ≠ 117 ∧
        (0x0170 : Nat) ≠ 42) ∧
      UefiMain (fwAllSucceed [0x0170]) 800 600 1 =
        (Outcome.idle,
          [BootEvent.callExitBootServices, BootEvent.retExitBootServices EFI_SUCCESS,
            BootEvent.renderPort80 0xDEADBEEF]) ∧
      UefiMain (fwAllSucceed [0x0167]) 800 600 1 =
        (Outcome.idle,
          [BootEvent.callInitGraphics, BootEvent.callSetMode 0,
            BootEvent.retInitGraphics EFI_SUCCESS, BootEvent.callExitBootServices,
            BootEvent.retExitBootServices EFI_SUCCESS, BootEvent.renderGraphics 0xDEADBEEF]) := by
  decide

theorem queryLoop_firstMatch (H V F err : Nat) (pre post : List ModeInformation)
    (m : ModeInformation) (n : Nat)
    (hpre : ∀ m2 ∈ pre, ¬ (m2.HorizontalResolution = H ∧ m2.VerticalResolution = V ∧
      m2.PixelFormat = F))
    (hm : m.HorizontalResolution = H ∧ m.VerticalResolution = V ∧ m.PixelFormat = F) :
    queryLoop H V F err (pre ++ m :: post) n = (EFI_SUCCESS, n + pre.length) := by
  induction pre generalizing n with
  | nil => simp only [List.nil_append, queryLoop, if_pos hm, List.length_nil, Nat.add_zero]
  | cons a pre ih =>
    have ha := hpre a (List.mem_cons_self a pre)
    rw [List.cons_append, queryLoop, if_neg ha,
      ih (n + 1) (fun m2 h2 => hpre m2 (List.mem_cons_of_mem a h2)), List.length_cons]
    congr 1
    omega

theorem initGraphics_firstMatch (fw : Firmware) (H V F : Nat) (pre post : List ModeInformation)
    (m : ModeInformation) (hmodes : fw.modes = pre ++ m :: post)
    (hpre : ∀ m2 ∈ pre, ¬ (m2.HorizontalResolution = H ∧ m2.VerticalResolution = V ∧
      m2.PixelFormat = F))
    (hm : m.HorizontalResolution = H ∧ m.VerticalResolution = V ∧ m.PixelFormat = F)
    (hl : fw.locateHandleBuffer = EFI_SUCCESS) (hh : fw.handleProtocol = EFI_SUCCESS)
    (hi : fw.indeterminate = EFI_SUCCESS) (hs : fw.setMode pre.length = EFI_SUCCESS) :
    initGraphics fw H V F = (EFI_SUCCESS, [BootEvent.callSetMode pre.length]) := by
  simp only [initGraphics, hmodes, queryLoop_firstMatch H V F _ pre post m 0 hpre hm,
    Nat.zero_add, hl, hh, hi, hs, ne_eq, not_true_eq_false, if_false]

end Secstatus
